import Mathlib

/-!
# Verification of the image ingestion / thumbnail-cache pipeline

Shallow embedding of the Rust sources `src/utils.rs`, `src/handler.rs` and
`src/main.rs` of the `rust_image_random` repository, together with proofs
settling the frozen claims C1..C10.

Modelling conventions:
* byte sequences are `List Nat` with every element `< 256`;
* paths are either plain `String`s (where the Rust code manipulates path
  strings directly) or abstract directory trees (`Ent`) for the recursive
  walks;
* filesystem and decoder effects are passed explicitly: a file entry carries
  the Boolean outcome of `image::open` (decodable) and of the save/encode
  step (encodable); existence of files on disk is an explicit set or flag;
* machine integers are `Nat` with explicit `% 2 ^ 32` where the Rust code
  works on `u32` words (the MD5 embedding);
* the floating point arithmetic in `create_thumbnail` (`f64` ratios) is
  embedded bit-exactly: `u32 -> f64` conversion is exact, and each `f64`
  division/multiplication is modelled as correct rounding (nearest, ties to
  even) of the exact rational result to a 53-bit significand (`roundF64`),
  valid on the normal range these u32-derived quantities occupy.
-/

namespace ImageRandom

/-! ## MD5 (the `md5` crate as invoked by `upload_image`)

`upload_image` (handler.rs lines 158-161 / main.rs lines 400-403) computes
`Md5::new(); hasher.update(filename.as_bytes()); format!("{:x}", finalize())`
and appends `.webp`.  The digest is the RFC 1321 MD5 of the file-name bytes;
we embed MD5 itself so that the naming function is fully executable. -/

/-- 32-bit truncation. -/
def w32 (x : Nat) : Nat := x % 2 ^ 32

/-- Bitwise complement on 32-bit words (operand assumed `< 2 ^ 32`). -/
def notW (x : Nat) : Nat := (2 ^ 32 - 1) ^^^ x

/-- Left-rotate a 32-bit word by `s` (with `0 < s < 32` as in the MD5 tables). -/
def rotl (x s : Nat) : Nat := w32 (x <<< s) ||| (x >>> (32 - s))

/-- The MD5 sine-derived constant table `K` (RFC 1321). -/
def mdK : List Nat :=
  [3614090360, 3905402710, 606105819, 3250441966, 4118548399, 1200080426,
   2821735955, 4249261313, 1770035416, 2336552879, 4294925233, 2304563134,
   1804603682, 4254626195, 2792965006, 1236535329, 4129170786, 3225465664,
   643717713, 3921069994, 3593408605, 38016083, 3634488961, 3889429448,
   568446438, 3275163606, 4107603335, 1163531501, 2850285829, 4243563512,
   1735328473, 2368359562, 4294588738, 2272392833, 1839030562, 4259657740,
   2763975236, 1272893353, 4139469664, 3200236656, 681279174, 3936430074,
   3572445317, 76029189, 3654602809, 3873151461, 530742520, 3299628645,
   4096336452, 1126891415, 2878612391, 4237533241, 1700485571, 2399980690,
   4293915773, 2240044497, 1873313359, 4264355552, 2734768916, 1309151649,
   4149444226, 3174756917, 718787259, 3951481745]

/-- The MD5 per-round shift table `s` (RFC 1321). -/
def mdS : List Nat :=
  [7, 12, 17, 22, 7, 12, 17, 22, 7, 12, 17, 22, 7, 12, 17, 22,
   5, 9, 14, 20, 5, 9, 14, 20, 5, 9, 14, 20, 5, 9, 14, 20,
   4, 11, 16, 23, 4, 11, 16, 23, 4, 11, 16, 23, 4, 11, 16, 23,
   6, 10, 15, 21, 6, 10, 15, 21, 6, 10, 15, 21, 6, 10, 15, 21]

/-- Mixing function and message index for round `i` of the MD5 compression,
given the current `(b, c, d)` words. -/
def mdMix (i b c d : Nat) : Nat × Nat :=
  if i < 16 then ((b &&& c) ||| (notW b &&& d), i)
  else if i < 32 then ((d &&& b) ||| (notW d &&& c), (5 * i + 1) % 16)
  else if i < 48 then (b ^^^ c ^^^ d, (3 * i + 5) % 16)
  else (c ^^^ (b ||| notW d), (7 * i) % 16)

/-- One MD5 round: transforms the state `(a, b, c, d)` using message words
`m` at round index `i`. -/
def mdRound (m : List Nat) (st : Nat × Nat × Nat × Nat) (i : Nat) :
    Nat × Nat × Nat × Nat :=
  match st with
  | (a, b, c, d) =>
    let fg := mdMix i b c d
    let tmp := w32 (a + fg.1 + (mdK.getD i 0) + (m.getD fg.2 0))
    (d, w32 (b + rotl tmp (mdS.getD i 0)), b, c)

/-- Little-endian decoding of 4 bytes into a 32-bit word. -/
def leWord (bs : List Nat) : Nat :=
  bs.getD 0 0 + 256 * bs.getD 1 0 + 65536 * bs.getD 2 0 + 16777216 * bs.getD 3 0

/-- Helper for `chunks`: accumulate the current chunk (reversed) while
walking the list structurally. -/
def chunksAux (n : Nat) : List α → List α → Nat → List (List α)
  | [], acc, _ => if acc.isEmpty then [] else [acc.reverse]
  | x :: xs, acc, k =>
    if k + 1 = n then (x :: acc).reverse :: chunksAux n xs [] 0
    else chunksAux n xs (x :: acc) (k + 1)

/-- Split a list into chunks of `n` (`n > 0`); used for the 64-byte blocks
and the 4-byte words of MD5. -/
def chunks (n : Nat) (l : List α) : List (List α) :=
  if n = 0 then [] else chunksAux n l [] 0

/-- Little-endian encoding of a 32-bit word as 4 bytes. -/
def wordBytesLE (x : Nat) : List Nat :=
  [x % 256, x / 256 % 256, x / 65536 % 256, x / 16777216 % 256]

/-- MD5 padding: append `0x80`, zero-pad until the length is 56 mod 64, then
append the original bit length as 8 little-endian bytes. -/
def mdPad (msg : List Nat) : List Nat :=
  let padLen := (55 + 64 - msg.length % 64) % 64 + 1
  let bitLen := (msg.length * 8) % 2 ^ 64
  msg ++ (128 :: List.replicate (padLen - 1) 0) ++
    [bitLen % 256, bitLen / 256 % 256, bitLen / 65536 % 256,
     bitLen / 16777216 % 256, bitLen / 2 ^ 32 % 256, bitLen / 2 ^ 40 % 256,
     bitLen / 2 ^ 48 % 256, bitLen / 2 ^ 56 % 256]

/-- Process one 64-byte block through the 64 MD5 rounds and add the result
into the running state. -/
def mdBlock (st : Nat × Nat × Nat × Nat) (block : List Nat) :
    Nat × Nat × Nat × Nat :=
  let m := (chunks 4 block).map leWord
  let r := (List.range 64).foldl (mdRound m) st
  (w32 (st.1 + r.1), w32 (st.2.1 + r.2.1), w32 (st.2.2.1 + r.2.2.1),
   w32 (st.2.2.2 + r.2.2.2))

/-- MD5 digest of a byte sequence, as the 16 output bytes. -/
def md5 (msg : List Nat) : List Nat :=
  let fin := (chunks 64 (mdPad msg)).foldl mdBlock
    (1732584193, 4023233417, 2562383102, 271733878)
  wordBytesLE fin.1 ++ wordBytesLE fin.2.1 ++ wordBytesLE fin.2.2.1 ++
    wordBytesLE fin.2.2.2

/-- One lowercase hexadecimal digit. -/
def hexDigit (n : Nat) : Char :=
  if n < 10 then Char.ofNat (48 + n) else Char.ofNat (87 + n)

/-- Two lowercase hexadecimal digits for one byte; this is how `{:x}` renders
each byte of the digest array (`{:02x}` per byte, width always 2). -/
def hexByte (b : Nat) : List Char := [hexDigit (b / 16), hexDigit (b % 16)]

/-- Lowercase hex rendering of a byte sequence. -/
def hexRender (bs : List Nat) : String := ⟨bs.flatMap hexByte⟩

/-- The content-addressed target name derived by `upload_image`
(handler.rs lines 158-161): MD5 of the original file name's bytes, rendered
as lowercase hex, with the `.webp` extension appended.  Pure: it depends on
nothing but the byte sequence. -/
def deriveName (filenameBytes : List Nat) : String :=
  hexRender (md5 filenameBytes) ++ ".webp"

/-! ## String / path helpers

The Rust code manipulates paths as strings (`format!`, `str::replace`,
`str::ends_with`, `Path::file_name`, `Path::extension`).  We embed these
operations on `List Char` so that every definition reduces in the kernel. -/

/-- `Path::file_name` on a `/`-separated path string: the final segment. -/
def lastSeg (s : String) : String :=
  ⟨s.data.foldl (fun acc c => if c == '/' then [] else acc ++ [c]) []⟩

/-- `str::ends_with`. -/
def strEndsWith (s pat : String) : Bool := pat.data.isSuffixOf s.data

/-- Character-level worker for `str::replace`: replace every non-overlapping
occurrence of `pat` left to right; `skip` counts characters still to consume
from a previously matched occurrence. -/
def replGo (pat rep : List Char) (skip : Nat) : List Char → List Char
  | [] => []
  | c :: t =>
    match skip with
    | k + 1 => replGo pat rep k t
    | 0 =>
      if !pat.isEmpty && pat.isPrefixOf (c :: t) then
        rep ++ replGo pat rep (pat.length - 1) t
      else c :: replGo pat rep 0 t

/-- `str::replace s pat rep` (all non-overlapping occurrences, left to
right; the empty pattern does not occur in our traces). -/
def strReplace (s pat rep : String) : String := ⟨replGo pat.data rep.data 0 s.data⟩

/-- `Path::extension` of a file name: the part after the last `.`, `none`
when there is no dot or the only dot is the leading character. -/
def extOf (name : String) : Option String :=
  let cs := name.data
  if cs.contains '.' then
    let afterRev := cs.reverse.takeWhile (fun c => c != '.')
    if cs.length - 1 - afterRev.length = 0 then none
    else some ⟨afterRev.reverse⟩
  else none

/-- `Path::with_extension("webp")`: drop the current extension (if any) and
append `.webp`. -/
def withExtWebp (name : String) : String :=
  match extOf name with
  | some e => (⟨name.data.take (name.data.length - e.data.length - 1)⟩ : String) ++ ".webp"
  | none => name ++ ".webp"

/-! ## Thumbnail dimension computation (`create_thumbnail`, utils.rs 66-77)

The Rust code computes `ratio = f64::from(w) / f64::from(h)` and branches on
`ratio > 1.0`; `height = f64::from(max_width) / ratio` (landscape) or
`width = f64::from(max_height) * ratio` is then truncated with `as u32`.
We embed the `f64` arithmetic bit-exactly over exact dyadic rationals:
`u32 -> f64` is exact, and each `/` and `*` rounds its exact rational result
to the nearest binary64 value (ties to even).  A positive finite binary64 in
the range these expressions take is `m / 2 ^ k` with `2 ^ 52 ≤ m ≤ 2 ^ 53`;
`roundF64 num den` produces that correctly rounded representation of
`num / den`, valid for quotients below `2 ^ 52` (every quotient formed here
is below `2 ^ 33`, far inside the normal range, so no overflow, underflow or
subnormals arise).  `as u32` truncates toward zero and saturates at
`u32::MAX`.  The `h = 0` cases follow the IEEE special values: `w / 0.0` is
`+inf` (so the landscape branch is taken and `max_width / inf` truncates to
0), and `0.0 / 0.0` is NaN (so `NaN > 1.0` is false and `max_height * NaN`
casts to 0). -/

/-- Bit length with explicit fuel (so that it reduces in the kernel);
`blenF fuel n` is correct for `n < 2 ^ fuel`. -/
def blenF : Nat → Nat → Nat
  | 0, _ => 0
  | f + 1, n => if n = 0 then 0 else blenF f (n / 2) + 1

/-- Bit length of a natural number below `2 ^ 128`. -/
def blen (n : Nat) : Nat := blenF 128 n

/-- Correctly rounded (nearest, ties to even) binary64 representation of
`num / den`, as a pair `(m, k)` with value `m / 2 ^ k` and
`2 ^ 52 ≤ m ≤ 2 ^ 53`; valid for `0 < num / den < 2 ^ 52`. -/
def roundF64 (num den : Nat) : Nat × Nat :=
  if num = 0 then (0, 0)
  else
    let k0 := 52 + blen den - blen num
    let k := if 2 ^ 52 * den ≤ num <<< k0 then k0 else k0 + 1
    let a := num <<< k
    let m0 := a / den
    let r := a % den
    let m :=
      if den < 2 * r then m0 + 1
      else if 2 * r = den then m0 + m0 % 2
      else m0
    (m, k)

/-- Thumbnail target dimensions chosen by `create_thumbnail`: the exact
`f64` evaluation of utils.rs 66-77.  `ratio = fl(w / h)`; landscape branch
when `ratio > 1.0`; the other dimension is the saturating `u32` truncation
of `fl(max_width / ratio)` (resp. `fl(max_height * ratio)`). -/
def computeDims (w h maxW maxH : Nat) : Nat × Nat :=
  if h = 0 then
    if w = 0 then (0, maxH)
    else (maxW, 0)
  else
    let r := roundF64 w h
    if 2 ^ r.2 < r.1 then
      let t := roundF64 (maxW <<< r.2) r.1
      (maxW, min (t.1 >>> t.2) (2 ^ 32 - 1))
    else
      let t := roundF64 (maxH * r.1) (1 <<< r.2)
      (min (t.1 >>> t.2) (2 ^ 32 - 1), maxH)

/-- The spec formula in exact integer arithmetic: what §4.4 step 3's words
compute when `w / h` and the truncated divisions are read as exact
rationals.  The real `f64` code (`computeDims`) can differ from this by one
unit (see the C4 theorems). -/
def exactDims (w h maxW maxH : Nat) : Nat × Nat :=
  if h < w then (maxW, maxW * h / w)
  else (maxH * w / h, maxH)

/-- Modelled from the spec. The dimension formula exactly as §4.4 step 3
words it: if the ratio `w/h` exceeds 1, target `(max_width,
trunc(max_width / (w/h)))`, otherwise `(trunc(max_height * (w/h)),
max_height)`, with exact rational arithmetic and floor-truncation. -/
def specDims (w h maxW maxH : Nat) : Nat × Nat :=
  let r : ℚ := (w : ℚ) / (h : ℚ)
  if 1 < r then (maxW, ⌊(maxW : ℚ) / r⌋₊)
  else (⌊(maxH : ℚ) * r⌋₊, maxH)

/-! ## `create_thumbnail` (utils.rs 48-86)

The effectful parts are passed in explicitly: `srcDims` is the outcome of
`image::open(image_path)` (dimensions when decodable, `none` when the open
or decode fails), `thumbExists` the outcome of `thumbnail_path.exists()`,
and `saveOk` the outcome of `thumbnail.save(..)`.  The trace records how
often the source was decoded and how often a resize/encode was attempted,
since the claims quantify over exactly that work. -/

structure ThumbEnv where
  srcDims : Option (Nat × Nat)
  thumbExists : Bool
  saveOk : Bool

structure ThumbTrace where
  ok : Bool
  decodes : Nat
  encodes : Nat
  thumbAfter : Bool
  savedDims : Option (Nat × Nat)
deriving DecidableEq

/-- `create_thumbnail`: NOTE the source order — `image::open` (line 56) runs
before the `thumbnail_path.exists()` check (line 62), so the source is
decoded even on a cache hit. -/
def createThumbnail (env : ThumbEnv) (maxW maxH : Nat) : ThumbTrace :=
  match env.srcDims with
  | none => ⟨false, 1, 0, env.thumbExists, none⟩
  | some (w, h) =>
    if env.thumbExists then ⟨true, 1, 0, true, none⟩
    else
      let d := computeDims w h maxW maxH
      if env.saveOk then ⟨true, 1, 1, true, some d⟩
      else ⟨false, 1, 1, false, some d⟩

/-- Two consecutive `create_thumbnail` calls on the same image and bounds;
the second call sees the thumbnail-existence state left by the first. -/
def callTwice (env : ThumbEnv) (maxW maxH : Nat) : ThumbTrace × ThumbTrace :=
  let t1 := createThumbnail env maxW maxH
  let t2 := createThumbnail ⟨env.srcDims, t1.thumbAfter, env.saveOk⟩ maxW maxH
  (t1, t2)

/-! ## Directory trees

Abstract snapshot of the directory tree the recursive walks operate on.
A file carries its name, the outcome of `image::open` on it (its dimensions
when decodable) and the outcome of the encode/save step. -/

inductive Ent where
  | file (name : String) (dims : Option (Nat × Nat)) (enc : Bool)
  | dir (name : String) (children : List Ent)

/-! ## `convert_images_to_webp` (utils.rs 145-184)

Walks every entry; for a file whose extension is `jpg`, `png` or `jpeg` it
decodes and re-encodes to webp, removing the original only after a
successful encode; per-file decode/encode failures are printed and the walk
continues.  There is no check whatsoever on directory names: every
subdirectory is recursed into.  The result records the new tree, the
converted count, the failure count and the list of paths passed to
`image::open`, in walk order. -/

/-- Extension filter of utils.rs line 156. -/
def isRaster (e : Option String) : Bool :=
  decide (e = some "jpg") || decide (e = some "png") || decide (e = some "jpeg")

structure CRes where
  tree : List Ent
  converted : Nat
  failed : Nat
  decoded : List String

mutual

def convertE (fp : String) : Ent → Ent × Nat × Nat × List String
  | .file n dims enc =>
    if isRaster (extOf n) then
      let p := fp ++ "/" ++ n
      match dims with
      | none => (.file n none enc, 0, 1, [p])
      | some d =>
        if enc then (.file (withExtWebp n) (some d) enc, 1, 0, [p])
        else (.file n (some d) enc, 0, 1, [p])
    else (.file n dims enc, 0, 0, [])
  | .dir n cs =>
    let rc := convertL (fp ++ "/" ++ n) cs
    (.dir n rc.tree, rc.converted, rc.failed, rc.decoded)

def convertL (fp : String) : List Ent → CRes
  | [] => ⟨[], 0, 0, []⟩
  | e :: rest =>
    let re := convertE fp e
    let r := convertL fp rest
    ⟨re.1 :: r.tree, re.2.1 + r.converted, re.2.2.1 + r.failed,
      re.2.2.2 ++ r.decoded⟩

end

mutual

/-- Raster-extension files (`jpg`/`png`/`jpeg`) of the whole tree, in walk
order — the declarative description of what the normalizer decodes. -/
def rasterPathsE (fp : String) : Ent → List String
  | .file n _ _ => if isRaster (extOf n) then [fp ++ "/" ++ n] else []
  | .dir n cs => rasterPaths (fp ++ "/" ++ n) cs

def rasterPaths (fp : String) : List Ent → List String
  | [] => []
  | e :: rest => rasterPathsE fp e ++ rasterPaths fp rest

end

mutual

/-- Number of raster files in the tree that decode and encode successfully. -/
def countRasterOkE : Ent → Nat
  | .file n dims enc => if isRaster (extOf n) && dims.isSome && enc then 1 else 0
  | .dir _ cs => countRasterOkL cs

def countRasterOkL : List Ent → Nat
  | [] => 0
  | e :: rest => countRasterOkE e + countRasterOkL rest

end

mutual

/-- Number of raster files in the tree whose decode or encode fails. -/
def countRasterBadE : Ent → Nat
  | .file n dims enc => if isRaster (extOf n) && !(dims.isSome && enc) then 1 else 0
  | .dir _ cs => countRasterBadL cs

def countRasterBadL : List Ent → Nat
  | [] => 0
  | e :: rest => countRasterBadE e + countRasterBadL rest

end

/-! ## `create_thumbnails` (utils.rs 89-142)

Recursive walk creating a thumbnail for every `.webp` file.  A directory
whose path ends with `thumbnails` is skipped (utils.rs 96).  For a file the
walk first derives the candidate thumbnail path by replacing the current
folder name inside the file path with `thumbnails` (utils.rs 111-120) and
skips the file when that path exists; otherwise it calls `create_thumbnail`,
counting a success and printing-and-continuing on failure.  The filesystem
is the list `ex` of existing paths, threaded through the walk: a created
thumbnail (`<image_folder>/thumbnails/<name>`) becomes visible to later
existence checks.  `hit` records whether any existence check succeeded
during the walk. -/

structure TRes where
  count : Nat
  failed : Nat
  decoded : List String
  hit : Bool
  fs : List String

mutual

def ctE (imgF : String) (maxW maxH : Nat) (fp : String) :
    Ent → List String → TRes
  | .file n dims enc, ex =>
    if extOf n = some "webp" then
      let p := fp ++ "/" ++ n
      let tPath := strReplace p (lastSeg fp) "thumbnails"
      if tPath ∈ ex then ⟨0, 0, [], true, ex⟩
      else
        let inThumb := imgF ++ "/thumbnails/" ++ n
        let tr := createThumbnail ⟨dims, decide (inThumb ∈ ex), enc⟩ maxW maxH
        let ex2 := if tr.ok = true ∧ tr.encodes = 1 then inThumb :: ex else ex
        if tr.ok then ⟨1, 0, [p], decide (tr.encodes = 0), ex2⟩
        else ⟨0, 1, [p], false, ex2⟩
    else ⟨0, 0, [], false, ex⟩
  | .dir n cs, ex =>
    let cp := fp ++ "/" ++ n
    if strEndsWith cp "thumbnails" then ⟨0, 0, [], false, ex⟩
    else ctL imgF maxW maxH cp cs ex

def ctL (imgF : String) (maxW maxH : Nat) (fp : String) :
    List Ent → List String → TRes
  | [], ex => ⟨0, 0, [], false, ex⟩
  | e :: rest, ex =>
    let re := ctE imgF maxW maxH fp e ex
    let r := ctL imgF maxW maxH fp rest re.fs
    ⟨re.count + r.count, re.failed + r.failed, re.decoded ++ r.decoded,
      re.hit || r.hit, r.fs⟩

end

/-- `create_thumbnails`: the top-level call also starts with the
`ends_with("thumbnails")` guard. -/
def createThumbnails (imgF : String) (maxW maxH : Nat) (fp : String)
    (es : List Ent) (ex : List String) : TRes :=
  if strEndsWith fp "thumbnails" then ⟨0, 0, [], false, ex⟩
  else ctL imgF maxW maxH fp es ex

mutual

/-- Webp files that thumbnail successfully (decodable and encodable), over
the walked portion of the tree: directories whose path ends with
`thumbnails` are skipped exactly as the walk skips them. -/
def countThumbOkE (fp : String) : Ent → Nat
  | .file n dims enc =>
    if decide (extOf n = some "webp") && dims.isSome && enc then 1 else 0
  | .dir n cs =>
    if strEndsWith (fp ++ "/" ++ n) "thumbnails" then 0
    else countThumbOkL (fp ++ "/" ++ n) cs

def countThumbOkL (fp : String) : List Ent → Nat
  | [] => 0
  | e :: rest => countThumbOkE fp e + countThumbOkL fp rest

end

mutual

/-- Webp files in the walked portion whose thumbnailing fails. -/
def countThumbBadE (fp : String) : Ent → Nat
  | .file n dims enc =>
    if decide (extOf n = some "webp") && !(dims.isSome && enc) then 1 else 0
  | .dir n cs =>
    if strEndsWith (fp ++ "/" ++ n) "thumbnails" then 0
    else countThumbBadL (fp ++ "/" ++ n) cs

def countThumbBadL (fp : String) : List Ent → Nat
  | [] => 0
  | e :: rest => countThumbBadE fp e + countThumbBadL fp rest

end

/-! ## `index_images` (utils.rs 219-265)

One walk over the root; every file with extension `webp` is pushed to the
`pc` or `mp` list according to the name of its immediate parent directory;
all other parent names are ignored.  (There is no check that the file lies
outside the thumbnails subtree: only the parent name is consulted.) -/

mutual

def idxE (parent fp : String) : Ent → List String × List String
  | .file n _ _ =>
    if extOf n = some "webp" then
      let p := fp ++ "/" ++ n
      if parent = "pc" then ([p], [])
      else if parent = "mp" then ([], [p])
      else ([], [])
    else ([], [])
  | .dir n cs => idxGo n (fp ++ "/" ++ n) cs

def idxGo (parent fp : String) : List Ent → List String × List String
  | [] => ([], [])
  | e :: rest =>
    let re := idxE parent fp e
    let r := idxGo parent fp rest
    (re.1 ++ r.1, re.2 ++ r.2)

end

/-- `index_images(folder)`: returns `[pc_images, mp_images]`. -/
def indexImages (root : String) (es : List Ent) : List String × List String :=
  idxGo (lastSeg root) root es

mutual

/-- All webp files of the tree with their immediate parent directory name,
in walk order — the declarative companion of `idxGo`. -/
def webpWalkE (parent fp : String) : Ent → List (String × String)
  | .file n _ _ =>
    if extOf n = some "webp" then [(parent, fp ++ "/" ++ n)] else []
  | .dir n cs => webpWalk n (fp ++ "/" ++ n) cs

def webpWalk (parent fp : String) : List Ent → List (String × String)
  | [] => []
  | e :: rest => webpWalkE parent fp e ++ webpWalk parent fp rest

end

mutual

/-- Modelled from the spec. §8 "Catalog partition completeness": the set of
post-normalization target-codec (`.webp`) files lying under a category
subtree (a top-level `pc` or `mp` directory of the root) and excluding the
thumbnails subtree. -/
def subtreeWebpE (fp : String) : Ent → List String
  | .file n _ _ => if extOf n = some "webp" then [fp ++ "/" ++ n] else []
  | .dir n cs => subtreeWebp (fp ++ "/" ++ n) cs

def subtreeWebp (fp : String) : List Ent → List String
  | [] => []
  | e :: rest => subtreeWebpE fp e ++ subtreeWebp fp rest

end

/-- Modelled from the spec (see `subtreeWebp`): the union the claim compares
the catalog against. -/
def specCatalog (root : String) : List Ent → List String
  | [] => []
  | .file _ _ _ :: rest => specCatalog root rest
  | .dir n cs :: rest =>
    (if n = "pc" ∨ n = "mp" then subtreeWebp (root ++ "/" ++ n) cs else []) ++
      specCatalog root rest

/-! ## Request handlers (handler.rs) -/

/-- Outcome of a request handler: a successful JSON list, a successful raw
body serving the file at a path, a structured error response, or a panic
(`unwrap` / `expect` on a failed operation — an unwound request, not a
structured response). -/
inductive Resp where
  | okJson (l : List String)
  | okBody (path : String)
  | notFound (msg : String)
  | badRequest (msg : String)
  | serverError (msg : String)
  | unauthorized
  | panicked (msg : String)
deriving DecidableEq

def isPanic : Resp → Bool
  | .panicked _ => true
  | _ => false

def isNotFound : Resp → Bool
  | .notFound _ => true
  | _ => false

/-- Substring test (`str::contains`) on character lists. -/
def charsContain (pat : List Char) : List Char → Bool
  | [] => pat.isEmpty
  | c :: t => pat.isPrefixOf (c :: t) || charsContain pat t

/-- `str::contains`: does `pat` occur in `s`. -/
def strContains (s pat : String) : Bool := charsContain pat.data s.data

/-- The lookup of handler.rs `get_image` (lines 26-38): first path in
`pc ++ mp` whose final segment equals the queried name. -/
def handlerFindImage (pc mp : List String) (q : String) : Option String :=
  (pc ++ mp).find? (fun p => lastSeg p == q)

/-- The lookup of main.rs `get_image` (line 285): first catalog path that
contains the queried name as a substring. -/
def mainFindImage (catalog : List String) (q : String) : Option String :=
  catalog.find? (fun p => strContains p q)

/-- handler.rs `get_image`: serve the found file or a structured 404. -/
def getImage (pc mp : List String) (q : String) : Resp :=
  match handlerFindImage pc mp q with
  | some p => .okBody p
  | none => .notFound "Image not found."

/-- handler.rs `get_list` (lines 72-107). -/
def getList (pc mp : List String) (sub : String) : Resp :=
  let chosen : Option (List String) :=
    if sub = "all" then some (pc ++ mp)
    else if sub = "pc" then some pc
    else if sub = "mp" then some mp
    else none
  match chosen with
  | none => .notFound "Invalid subfolder."
  | some l =>
    if l.isEmpty then .notFound "No images found."
    else .okJson (l.map lastSeg)

/-- handler.rs `list_images` (lines 208-260): `draw` is the value returned
by `rng.gen_range(0..filtered.len())`; `filtered.get(draw).unwrap()` panics
when it is out of range. -/
def listImages (pc mp : List String) (sub : String) (draw : Nat) : Resp :=
  let chosen : Option (List String) :=
    if sub = "pc" then some pc
    else if sub = "mp" then some mp
    else if sub = "all" then some (pc ++ mp)
    else none
  match chosen with
  | none => .notFound "Invalid subfolder."
  | some l =>
    if l.isEmpty then .notFound "No images found."
    else
      match l.get? draw with
      | some p => .okBody p
      | none => .panicked "Option.unwrap on None"

/-- handler.rs `get_thumbnail` (lines 264-274): opens
`<image_folder>/thumbnails/<filename>` with `File::open(..).unwrap()` —
a missing file is a panic, not a structured response.  `ex` is the set of
existing files. -/
def getThumbnail (ex : List String) (imgFolder fname : String) : Resp :=
  let p := imgFolder ++ "/thumbnails/" ++ fname
  if p ∈ ex then .okBody p else .panicked "File::open unwrap on missing file"

/-! ## `upload_image` (handler.rs 110-205)

Per-field processing: missing file name is a 400; the decode of the payload
uses `.expect("Failed to decode image")` (line 175-176) — a decode failure
panics; a save failure is a structured 500; a thumbnail failure after a
successful save is a distinct structured 500 and the saved image is not
removed.  `saved` accumulates the files written to disk. -/

structure UploadField where
  filename : Option (List Nat)
  decodable : Bool
  savable : Bool
  thumbOk : Bool

def uploadGo (imageFolder sub : String) :
    List UploadField → List String → List String → Resp × List String
  | [], acc, saved => (.okJson acc.reverse, saved)
  | f :: rest, acc, saved =>
    match f.filename with
    | none => (.badRequest "No filename found.", saved)
    | some nameBytes =>
      let newName := deriveName nameBytes
      let newPath := imageFolder ++ "/" ++ sub ++ "/" ++ newName
      if !f.decodable then (.panicked "Failed to decode image", saved)
      else if !f.savable then (.serverError "Failed to save image.", saved)
      else if !f.thumbOk then
        (.serverError "Image uploaded successfully, but failed to create thumbnail.",
          newPath :: saved)
      else uploadGo imageFolder sub rest (("/api/image/" ++ newName) :: acc)
        (newPath :: saved)

/-- handler.rs `upload_image`: bearer-token check, then the field loop. -/
def uploadImage (authOk : Bool) (imageFolder sub : String)
    (fields : List UploadField) : Resp × List String :=
  if !authOk then (.unauthorized, [])
  else uploadGo imageFolder sub fields [] []

/-! ## Helper lemmas and sanity checks

The MD5 test vectors below are the standard RFC 1321 digests (they agree
with `md5sum`), validating the digest embedding that `deriveName` uses. -/

set_option maxRecDepth 10000 in
theorem md5_vector_a : hexRender (md5 [97]) = "0cc175b9c0f1b6a831c399e269772661" := by
  decide

set_option maxRecDepth 10000 in
theorem md5_vector_abc :
    hexRender (md5 [97, 98, 99]) = "900150983cd24fb0d6963f7d28e17f72" := by
  decide

set_option maxRecDepth 10000 in
theorem deriveName_vector :
    deriveName [97, 46, 112, 110, 103] = "32d3ca5e23f4ccf1e4c8660c40e75f33.webp" := by
  decide

theorem pathHelpers_vector :
    lastSeg "images/pc/a.webp" = "a.webp" ∧
    strReplace "images/pc/a.webp" "pc" "thumbnails" = "images/thumbnails/a.webp" ∧
    extOf "a.png" = some "png" ∧ extOf ".gitignore" = none ∧
    withExtWebp "b.jpeg" = "b.webp" := by
  decide

/-- Structural induction principle for entry lists (the nested `List Ent`
recursion). -/
theorem entListInd (P : List Ent → Prop) (h0 : P [])
    (hf : ∀ n d e rest, P rest → P (.file n d e :: rest))
    (hd : ∀ n cs rest, P cs → P rest → P (.dir n cs :: rest)) :
    ∀ es, P es
  | [] => h0
  | .file n d e :: rest => hf n d e rest (entListInd P h0 hf hd rest)
  | .dir n cs :: rest =>
    hd n cs rest (entListInd P h0 hf hd cs) (entListInd P h0 hf hd rest)
termination_by es => sizeOf es
decreasing_by all_goals (simp; try omega)


theorem flatMap_hexByte_length : ∀ bs : List Nat, (bs.flatMap hexByte).length = 2 * bs.length
  | [] => rfl
  | b :: bs => by
    simp [List.flatMap_cons, hexByte, flatMap_hexByte_length bs]
    ring

theorem md5_length (msg : List Nat) : (md5 msg).length = 16 := by
  simp [md5, wordBytesLE]

theorem hexRender_length (bs : List Nat) : (hexRender bs).length = 2 * bs.length := by
  simp only [hexRender, String.length]
  exact flatMap_hexByte_length bs

/-! ## Claims -/

/-- C3: `derive_name` (the naming step of `upload_image`, handler.rs
158-161) is a deterministic pure function of the original file name's bytes
alone: it is the fixed-width (32 hex digit) MD5 digest rendering followed by
the `.webp` extension, 37 characters in total; equal inputs give equal
names, so two uploads with the same original name collapse to the same
target file.  The embedding is a pure function — the source lines consult
nothing but the file-name bytes, in particular not the filesystem. -/
theorem c3_derive_name_deterministic (n : List Nat) (hn : n ≠ []) :
    deriveName n = hexRender (md5 n) ++ ".webp" ∧
    (hexRender (md5 n)).length = 32 ∧
    (deriveName n).length = 37 ∧
    ∀ m : List Nat, m = n → deriveName m = deriveName n := by
  refine ⟨rfl, ?_, ?_, ?_⟩
  · rw [hexRender_length, md5_length]
  · show (hexRender (md5 n) ++ ".webp").length = 37
    rw [String.length_append, hexRender_length, md5_length]
    rfl
  · intro m hm; rw [hm]

theorem c3_derive_name_deterministic_witness :
    ([97] : List Nat) ≠ [] ∧
    (deriveName [97] = hexRender (md5 [97]) ++ ".webp" ∧
      (hexRender (md5 [97])).length = 32 ∧
      (deriveName [97]).length = 37 ∧
      ∀ m : List Nat, m = [97] → deriveName m = deriveName [97]) :=
  ⟨by decide, c3_derive_name_deterministic [97] (by decide)⟩

theorem div_tolerance (a b : Nat) (hb : 0 < b) :
    b * (a / b) ≤ a ∧ a < b * (a / b + 1) := by
  have h1 := Nat.div_add_mod a b
  have h2 := Nat.mod_lt a hb
  rw [Nat.mul_succ]
  omega

theorem mul_div_le_of_le (a b c : Nat) (h : b ≤ c) : a * b / c ≤ a :=
  Nat.div_le_of_le_mul (le_trans (Nat.mul_le_mul_left a h) (le_of_eq (Nat.mul_comm a c)))

theorem exactDims_eq_specDims (w h maxW maxH : Nat) (hw : 0 < w) (hh : 0 < h) :
    exactDims w h maxW maxH = specDims w h maxW maxH := by
  have hQ : (0 : ℚ) < (h : ℚ) := by exact_mod_cast hh
  have hbig : 1 < ((w : ℚ) / (h : ℚ)) ↔ h < w := by
    rw [lt_div_iff₀ hQ, one_mul]
    exact_mod_cast Iff.rfl
  simp only [exactDims, specDims]
  by_cases hlt : h < w
  · rw [if_pos hlt, if_pos (hbig.mpr hlt)]
    have : (maxW : ℚ) / ((w : ℚ) / (h : ℚ)) = ((maxW * h : ℕ) : ℚ) / ((w : ℕ) : ℚ) := by
      rw [div_div_eq_mul_div]
      push_cast
      ring_nf
    rw [this, Nat.floor_div_nat, Nat.floor_natCast]
  · rw [if_neg hlt, if_neg (fun hc => hlt (hbig.mp hc))]
    have : (maxH : ℚ) * ((w : ℚ) / (h : ℚ)) = ((maxH * w : ℕ) : ℚ) / ((h : ℕ) : ℚ) := by
      rw [mul_div_assoc']
      push_cast
      ring_nf
    rw [this, Nat.floor_div_nat, Nat.floor_natCast]

theorem blenF_zero : ∀ fuel : Nat, blenF fuel 0 = 0
  | 0 => rfl
  | _ + 1 => by simp [blenF]

theorem blenF_spec : ∀ fuel n : Nat, 0 < n → n < 2 ^ fuel →
    2 ^ (blenF fuel n - 1) ≤ n ∧ n < 2 ^ blenF fuel n := by
  intro fuel
  induction fuel with
  | zero =>
    intro n hn hb
    simp at hb
    omega
  | succ f ih =>
    intro n hn hb
    rw [blenF, if_neg (Nat.pos_iff_ne_zero.mp hn)]
    by_cases h2 : n / 2 = 0
    · have hn1 : n = 1 := by omega
      subst hn1
      rw [h2, blenF_zero]
      simp
    · have hpos : 0 < n / 2 := Nat.pos_of_ne_zero h2
      have hlt : n / 2 < 2 ^ f := by
        rw [pow_succ] at hb
        omega
      obtain ⟨l, u⟩ := ih (n / 2) hpos hlt
      have hL : 1 ≤ blenF f (n / 2) := by
        by_contra h0
        have hz : blenF f (n / 2) = 0 := by omega
        rw [hz] at u
        omega
      constructor
      · have h1 : 2 ^ (blenF f (n / 2) + 1 - 1) = 2 ^ (blenF f (n / 2) - 1) * 2 := by
          rw [← pow_succ]
          congr 1
          omega
        rw [h1]
        have := Nat.mul_le_mul_right 2 l
        omega
      · rw [pow_succ]
        have := Nat.mul_le_mul_right 2 u
        omega

theorem roundF64_spec (num den : Nat) (hnum : 0 < num) (hden : 0 < den)
    (hq : num < 2 ^ 52 * den) (hnb : num < 2 ^ 128) (hdb : den < 2 ^ 128) :
    2 ^ 52 * den ≤ num * 2 ^ (roundF64 num den).2 ∧
    num * 2 ^ (roundF64 num den).2 < 2 ^ 53 * den ∧
    2 * (num * 2 ^ (roundF64 num den).2) ≤ 2 * ((roundF64 num den).1 * den) + den ∧
    2 * ((roundF64 num den).1 * den) ≤ 2 * (num * 2 ^ (roundF64 num den).2) + den ∧
    2 ^ 52 ≤ (roundF64 num den).1 ∧ (roundF64 num den).1 ≤ 2 ^ 53 := by
  obtain ⟨hNl, hNu⟩ := blenF_spec 128 num hnum hnb
  obtain ⟨hDl, hDu⟩ := blenF_spec 128 den hden hdb
  have hN1 : 1 ≤ blenF 128 num := by
    by_contra h0
    have hz : blenF 128 num = 0 := by omega
    rw [hz] at hNu
    omega
  have hD1 : 1 ≤ blenF 128 den := by
    by_contra h0
    have hz : blenF 128 den = 0 := by omega
    rw [hz] at hDu
    omega
  have hk0b : blenF 128 num ≤ 52 + blenF 128 den := by
    by_contra h0
    have h1 : 2 ^ (52 + blenF 128 den) ≤ 2 ^ (blenF 128 num - 1) :=
      Nat.pow_le_pow_right (by norm_num) (by omega)
    have h2 : (2 : Nat) ^ (52 + blenF 128 den) = 2 ^ 52 * 2 ^ blenF 128 den :=
      pow_add 2 52 _
    have h3 : 2 ^ 52 * den < 2 ^ 52 * 2 ^ blenF 128 den :=
      (Nat.mul_lt_mul_left (by positivity)).mpr hDu
    omega
  have hmain : 2 ^ 52 * den ≤ num * 2 ^ (roundF64 num den).2 ∧
      num * 2 ^ (roundF64 num den).2 < 2 ^ 53 * den := by
    rw [roundF64, if_neg (Nat.pos_iff_ne_zero.mp hnum)]
    simp only [blen, Nat.shiftLeft_eq]
    set Ln := blenF 128 num with hLn
    set Ld := blenF 128 den with hLd
    set k0 := 52 + Ld - Ln with hk0
    have hsum : Ln + k0 = 52 + Ld := by omega
    by_cases ht : 2 ^ 52 * den ≤ num * 2 ^ k0
    · rw [if_pos ht]
      refine ⟨ht, ?_⟩
      have h1 : num * 2 ^ k0 < 2 ^ Ln * 2 ^ k0 :=
        (Nat.mul_lt_mul_right (Nat.pos_pow_of_pos _ (by norm_num))).mpr hNu
      have h2 : (2 : Nat) ^ Ln * 2 ^ k0 = 2 ^ (52 + Ld) := by
        rw [← pow_add, hsum]
      have h3 : (2 : Nat) ^ (52 + Ld) = 2 ^ 53 * 2 ^ (Ld - 1) := by
        rw [← pow_add]
        congr 1
        omega
      have h4 : 2 ^ 53 * 2 ^ (Ld - 1) ≤ 2 ^ 53 * den :=
        Nat.mul_le_mul_left _ hDl
      omega
    · rw [if_neg ht]
      constructor
      · have h1 : 2 ^ (Ln - 1) * 2 ^ (k0 + 1) ≤ num * 2 ^ (k0 + 1) :=
          Nat.mul_le_mul_right _ hNl
        have h2 : (2 : Nat) ^ (Ln - 1) * 2 ^ (k0 + 1) = 2 ^ (52 + Ld) := by
          rw [← pow_add]
          congr 1
          omega
        have h3 : (2 : Nat) ^ (52 + Ld) = 2 ^ 52 * 2 ^ Ld := pow_add 2 52 Ld
        have h4 : 2 ^ 52 * den ≤ 2 ^ 52 * 2 ^ Ld :=
          Nat.mul_le_mul_left _ (le_of_lt hDu)
        omega
      · have h1 : num * 2 ^ (k0 + 1) = 2 * (num * 2 ^ k0) := by ring
        omega
  have hshape : ∃ k : Nat, roundF64 num den =
      ((if den < 2 * (num * 2 ^ k % den) then num * 2 ^ k / den + 1
        else if 2 * (num * 2 ^ k % den) = den then
          num * 2 ^ k / den + num * 2 ^ k / den % 2
        else num * 2 ^ k / den), k) := by
    rw [roundF64, if_neg (Nat.pos_iff_ne_zero.mp hnum)]
    simp only [Nat.shiftLeft_eq]
    by_cases ht : 2 ^ 52 * den ≤ num * 2 ^ (52 + blen den - blen num)
    · rw [if_pos ht]
      exact ⟨_, rfl⟩
    · rw [if_neg ht]
      exact ⟨_, rfl⟩
  obtain ⟨k, hk⟩ := hshape
  obtain ⟨hA, hB⟩ := hmain
  rw [hk] at hA hB ⊢
  simp only at hA hB ⊢
  set a := num * 2 ^ k with ha
  have hdm := Nat.div_add_mod a den
  have hr : a % den < den := Nat.mod_lt _ hden
  have hm0l : 2 ^ 52 ≤ a / den := (Nat.le_div_iff_mul_le hden).mpr (by omega)
  have hm0u : a / den < 2 ^ 53 := (Nat.div_lt_iff_lt_mul hden).mpr (by omega)
  set m0 := a / den with hm0
  set r := a % den with hrd
  have he2 : m0 * den = den * m0 := Nat.mul_comm _ _
  refine ⟨hA, hB, ?_⟩
  by_cases h1 : den < 2 * r
  · rw [if_pos h1]
    have he : (m0 + 1) * den = m0 * den + den := by ring
    exact ⟨by omega, by omega, by omega, by omega⟩
  · rw [if_neg h1]
    by_cases h2 : 2 * r = den
    · rw [if_pos h2]
      have he : (m0 + m0 % 2) * den = m0 * den + m0 % 2 * den := by ring
      have hp : m0 % 2 ≤ 1 := by omega
      have hp2 : m0 % 2 * den ≤ 1 * den := Nat.mul_le_mul_right den hp
      rw [one_mul] at hp2
      exact ⟨by omega, by omega, by omega, by omega⟩
    · rw [if_neg h2]
      exact ⟨by omega, by omega, by omega, by omega⟩


/-- Landscape-branch tolerance: if `(m1, k1)` is the rounded `w / h` with
value above 1 and `(m2, k2)` the rounded `maxW * 2 ^ k1 / m1`, the truncated
result `m2 / 2 ^ k2` is within one unit of the exact `maxW * h / w` and
never exceeds `maxW`.  The hypotheses are the normalization and half-ulp
bracketing facts supplied by `roundF64_spec`. -/
theorem landFacts (w h maxW m1 k1 m2 k2 : Nat)
    (hw : 0 < w) (hh : 0 < h) (hwb : w < 2 ^ 32) (hhb : h < 2 ^ 32)
    (hmwb : maxW < 2 ^ 32) (hmw : 0 < maxW)
    (hbr : 2 ^ k1 < m1)
    (rA : 2 * (w * 2 ^ k1) ≤ 2 * (m1 * h) + h)
    (rB : 2 * (m1 * h) ≤ 2 * (w * 2 ^ k1) + h)
    (rN1 : 2 ^ 52 * h ≤ w * 2 ^ k1) (rN2 : w * 2 ^ k1 < 2 ^ 53 * h)
    (rM1 : 2 ^ 52 ≤ m1) (rM2 : m1 ≤ 2 ^ 53)
    (sA : 2 * (maxW * 2 ^ k1 * 2 ^ k2) ≤ 2 * (m2 * m1) + m1)
    (sB : 2 * (m2 * m1) ≤ 2 * (maxW * 2 ^ k1 * 2 ^ k2) + m1)
    (sN1 : 2 ^ 52 * m1 ≤ maxW * 2 ^ k1 * 2 ^ k2)
    (sN2 : maxW * 2 ^ k1 * 2 ^ k2 < 2 ^ 53 * m1)
    (sM1 : 2 ^ 52 ≤ m2) (sM2 : m2 ≤ 2 ^ 53) :
    m2 / 2 ^ k2 ≤ maxW * h / w + 1 ∧ maxW * h / w ≤ m2 / 2 ^ k2 + 1 ∧
    m2 / 2 ^ k2 ≤ maxW := by
  have hk2p : (0 : Nat) < 2 ^ k2 := Nat.pos_pow_of_pos _ (by norm_num)
  have hk1p : (0 : Nat) < 2 ^ k1 := Nat.pos_pow_of_pos _ (by norm_num)
  have hwgt : h < w := by
    by_contra hcon
    have hwh : w ≤ h := by omega
    have s1 : w * 2 ^ k1 ≤ h * 2 ^ k1 := Nat.mul_le_mul_right _ hwh
    have s2 : (2 * m1) * h ≤ (2 * 2 ^ k1 + 1) * h := by ring_nf; ring_nf at rB s1; linarith
    have s3 := Nat.le_of_mul_le_mul_right s2 hh
    omega
  have hE1 : w * (maxW * h / w) ≤ maxW * h := Nat.mul_div_le (maxW * h) w
  have hE2 : maxW * h < w * (maxW * h / w) + w := by
    have h1 := Nat.div_add_mod (maxW * h) w
    have h2 : (maxW * h) % w < w := Nat.mod_lt _ hw
    omega
  generalize hEg : maxW * h / w = E at hE1 hE2 ⊢
  -- sharp bound: the rounded quotient stays below maxW
  have hbnd : m2 < maxW * 2 ^ k2 := by
    by_contra hcon
    have hc : maxW * 2 ^ k2 ≤ m2 := by omega
    obtain ⟨m1p, rfl⟩ : ∃ m1p, m1 = m1p + 1 := ⟨m1 - 1, by omega⟩
    have t1 : 2 * (maxW * 2 ^ k2 * (m1p + 1)) ≤ 2 * (m2 * (m1p + 1)) :=
      Nat.mul_le_mul_left 2 (Nat.mul_le_mul_right _ hc)
    have t2 : maxW * 2 ^ k1 * 2 ^ k2 ≤ maxW * m1p * 2 ^ k2 :=
      Nat.mul_le_mul_right _ (Nat.mul_le_mul_left _ (by omega))
    have key : 2 * (maxW * 2 ^ k2) ≤ m1p + 1 := by linarith [t1, sB, t2]
    have t4 : 2 ^ 52 < maxW * 2 ^ k2 := by
      by_contra hX
      have hX2 : maxW * 2 ^ k2 ≤ 2 ^ 52 := by omega
      have hq1 : maxW * 2 ^ k2 * m1p ≤ 2 ^ 52 * m1p := Nat.mul_le_mul_right _ hX2
      have hq2 : maxW * m1p * 2 ^ k2 = maxW * 2 ^ k2 * m1p := by ring
      linarith [sN1, t2, hq1, hq2]
    omega
  have hup : m2 / 2 ^ k2 ≤ E + 1 := by
    have hlt : m2 < (E + 2) * 2 ^ k2 := by
      by_contra hcon
      have hc : (E + 2) * 2 ^ k2 ≤ m2 := by omega
      have t1 : 2 * ((E + 2) * 2 ^ k2 * m1) * w ≤ 2 * (m2 * m1) * w :=
        Nat.mul_le_mul_right w (Nat.mul_le_mul_left 2 (Nat.mul_le_mul_right m1 hc))
      have t2 : 2 * (m2 * m1) * w ≤ (2 * (maxW * 2 ^ k1 * 2 ^ k2) + m1) * w :=
        Nat.mul_le_mul_right w sB
      have t3 : 2 * (w * 2 ^ k1) * (maxW * 2 ^ k2) ≤
          (2 * (m1 * h) + h) * (maxW * 2 ^ k2) := Nat.mul_le_mul_right _ rA
      have t4a : (maxW * h + 1) * (2 * (m1 * 2 ^ k2)) ≤ (w * E + w) * (2 * (m1 * 2 ^ k2)) :=
        Nat.mul_le_mul_right _ (by omega)
      have t4b : (maxW * h + 1) * 2 ^ k2 ≤ (w * E + w) * 2 ^ k2 :=
        Nat.mul_le_mul_right _ (by omega)
      have t5 : (w * E + w) * 2 ^ k2 ≤ (w * m1) * 2 ^ k2 := by
        refine Nat.mul_le_mul_right _ ?_
        have e2 : maxW * h ≤ maxW * w := Nat.mul_le_mul_left _ (le_of_lt hwgt)
        have e3 : (maxW + 1) * w ≤ 2 ^ 32 * w := Nat.mul_le_mul_right _ (by omega)
        have e5 : 2 ^ 32 * w ≤ m1 * w := Nat.mul_le_mul_right _ (by omega)
        linarith [hE1, e2, e3, e5]
      have t6 : w * m1 ≤ w * m1 * 2 ^ k2 := Nat.le_mul_of_pos_right _ hk2p
      have v1 : 2 * ((E + 2) * 2 ^ k2 * m1) * w ≤
          (2 * (m1 * h) + h) * (maxW * 2 ^ k2) + m1 * w := by
        linarith [t1, t2, t3]
      have v2 : (2 * (m1 * h) + h) * (maxW * 2 ^ k2) + 2 * (m1 * 2 ^ k2) + 2 ^ k2 ≤
          (w * E + w) * (2 * (m1 * 2 ^ k2)) + (w * E + w) * 2 ^ k2 := by
        linarith [t4a, t4b]
      have z1 : 0 ≤ m1 * 2 ^ k2 := Nat.zero_le _
      ring_nf at v1 v2 t5 t6 z1
      linarith [v1, v2, t5, t6, hk2p, z1]
    have := (Nat.div_lt_iff_lt_mul hk2p).mpr hlt
    omega
  have hlow : E ≤ m2 / 2 ^ k2 + 1 := by
    by_contra hcon
    have hD : m2 / 2 ^ k2 + 2 ≤ E := Nat.lt_of_not_le hcon
    have h2E : 2 ≤ E := le_trans (Nat.le_add_left 2 _) hD
    obtain ⟨E2, hE2eq⟩ : ∃ e2, E = e2 + 2 := ⟨E - 2, by omega⟩
    have hmlt : m2 + 1 ≤ (E2 + 1) * 2 ^ k2 := by
      have h1 := Nat.div_add_mod m2 (2 ^ k2)
      have h2 : m2 % 2 ^ k2 < 2 ^ k2 := Nat.mod_lt _ hk2p
      have h3 : 2 ^ k2 * (m2 / 2 ^ k2) ≤ 2 ^ k2 * E2 := Nat.mul_le_mul_left _ (by omega)
      linarith [h1, h2, h3]
    have t1 : 2 * (maxW * 2 ^ k1 * 2 ^ k2) * w ≤ (2 * (m2 * m1) + m1) * w :=
      Nat.mul_le_mul_right w sA
    have t2 : 2 * (m1 * h) * (maxW * 2 ^ k2) ≤
        (2 * (w * 2 ^ k1) + h) * (maxW * 2 ^ k2) := Nat.mul_le_mul_right _ rB
    have t3 : (w * E) * (2 * (m1 * 2 ^ k2)) ≤ (maxW * h) * (2 * (m1 * 2 ^ k2)) :=
      Nat.mul_le_mul_right _ hE1
    have t4 : (m2 + 1) * (2 * (m1 * w)) ≤ ((E2 + 1) * 2 ^ k2) * (2 * (m1 * w)) :=
      Nat.mul_le_mul_right _ hmlt
    have t5 : (h * maxW) * 2 ^ k2 ≤ (w * maxW) * 2 ^ k2 :=
      Nat.mul_le_mul_right _ (Nat.mul_le_mul_right _ (by omega))
    have t6 : (maxW + 1) * (w * 2 ^ k2) ≤ m1 * (w * 2 ^ k2) :=
      Nat.mul_le_mul_right _ (by omega)
    rw [hE2eq] at t3
    have v1 : (w * (E2 + 2)) * (2 * (m1 * 2 ^ k2)) ≤
        (2 * (w * 2 ^ k1) + h) * (maxW * 2 ^ k2) := by
      linarith [t3, t2]
    have v2 : 2 * (w * 2 ^ k1) * (maxW * 2 ^ k2) ≤ (2 * (m2 * m1) + m1) * w := by
      linarith [t1]
    have t7 : 0 < m1 * w := Nat.mul_pos (by omega) hw
    have z1 : 0 ≤ m1 * w * 2 ^ k2 := Nat.zero_le _
    have z2 : 0 ≤ w * 2 ^ k2 := Nat.zero_le _
    ring_nf at v1 v2 t4 t5 t6 t7 z1 z2
    linarith [v1, v2, t4, t5, t6, t7, z1, z2]
  refine ⟨hup, hlow, ?_⟩
  have := (Nat.div_lt_iff_lt_mul hk2p).mpr hbnd
  omega

/-- A rounded quotient strictly above 1 forces a numerator strictly above
the denominator: `fl(w / h) > 1` implies `h < w`. -/
theorem ratioGtOne (w h m1 k1 : Nat) (hh : 0 < h)
    (rB : 2 * (m1 * h) ≤ 2 * (w * 2 ^ k1) + h)
    (hbr : 2 ^ k1 < m1) : h < w := by
  by_contra hcon
  have hwh : w ≤ h := by omega
  have s1 : w * 2 ^ k1 ≤ h * 2 ^ k1 := Nat.mul_le_mul_right _ hwh
  have s2 : (2 * m1) * h ≤ (2 * 2 ^ k1 + 1) * h := by ring_nf; ring_nf at rB s1; linarith
  have s3 := Nat.le_of_mul_le_mul_right s2 hh
  omega

/-- A rounded quotient at most 1 forces `w ≤ h` (for `w < 2 ^ 32`): the
relative error of one rounding is far below `1 / h`. -/
theorem ratioLeOne (w h m1 k1 : Nat) (hh : 0 < h) (hwb : w < 2 ^ 32)
    (rA : 2 * (w * 2 ^ k1) ≤ 2 * (m1 * h) + h)
    (rN1 : 2 ^ 52 * h ≤ w * 2 ^ k1)
    (hbr : m1 ≤ 2 ^ k1) : w ≤ h := by
  by_contra hcon
  have hw2 : h + 1 ≤ w := by omega
  have step1 : 2 * 2 ^ k1 ≤ h := by
    have hw1 : (h + 1) * 2 ^ k1 ≤ w * 2 ^ k1 := Nat.mul_le_mul_right _ hw2
    have t2 : 2 * (m1 * h) ≤ 2 * (2 ^ k1 * h) :=
      Nat.mul_le_mul_left _ (Nat.mul_le_mul_right _ hbr)
    have rA' := rA
    ring_nf at hw1 t2 rA' ⊢
    linarith [hw1, t2, rA']
  have s1 : 2 ^ 31 * (2 * 2 ^ k1) ≤ 2 ^ 31 * h := Nat.mul_le_mul_left _ step1
  have s2 : w * 2 ^ k1 ≤ 2 ^ 32 * 2 ^ k1 := Nat.mul_le_mul_right _ (by omega)
  have s3 : 2 ^ 52 * h ≤ 2 ^ 31 * h := by
    ring_nf at s1 s2 ⊢
    linarith [rN1, s1, s2]
  have s4 : (2 : Nat) ^ 52 ≤ 2 ^ 31 := Nat.le_of_mul_le_mul_right s3 hh
  norm_num at s4

/-- Portrait-branch tolerance: if `(m1, k1)` is the rounded `w / h` with
value at most 1 and `(m2, k2)` the rounded `maxH * m1 / 2 ^ k1`, the
truncated result `m2 / 2 ^ k2` is within one unit of the exact
`maxH * w / h` and never exceeds `maxH`. -/
theorem portFacts (w h maxH m1 k1 m2 k2 : Nat)
    (hw : 0 < w) (hh : 0 < h) (hwb : w < 2 ^ 32) (hhb : h < 2 ^ 32)
    (hmhb : maxH < 2 ^ 32) (hmh : 0 < maxH)
    (hbr : m1 ≤ 2 ^ k1)
    (rA : 2 * (w * 2 ^ k1) ≤ 2 * (m1 * h) + h)
    (rB : 2 * (m1 * h) ≤ 2 * (w * 2 ^ k1) + h)
    (rN1 : 2 ^ 52 * h ≤ w * 2 ^ k1) (rN2 : w * 2 ^ k1 < 2 ^ 53 * h)
    (rM1 : 2 ^ 52 ≤ m1) (rM2 : m1 ≤ 2 ^ 53)
    (sA : 2 * (maxH * m1 * 2 ^ k2) ≤ 2 * (m2 * 2 ^ k1) + 2 ^ k1)
    (sB : 2 * (m2 * 2 ^ k1) ≤ 2 * (maxH * m1 * 2 ^ k2) + 2 ^ k1)
    (sN1 : 2 ^ 52 * 2 ^ k1 ≤ maxH * m1 * 2 ^ k2)
    (sN2 : maxH * m1 * 2 ^ k2 < 2 ^ 53 * 2 ^ k1)
    (sM1 : 2 ^ 52 ≤ m2) (sM2 : m2 ≤ 2 ^ 53) :
    m2 / 2 ^ k2 ≤ maxH * w / h + 1 ∧ maxH * w / h ≤ m2 / 2 ^ k2 + 1 ∧
    m2 / 2 ^ k2 ≤ maxH := by
  have hk2p : (0 : Nat) < 2 ^ k2 := Nat.pos_pow_of_pos _ (by norm_num)
  have hk1p : (0 : Nat) < 2 ^ k1 := Nat.pos_pow_of_pos _ (by norm_num)
  have hE1 : h * (maxH * w / h) ≤ maxH * w := Nat.mul_div_le (maxH * w) h
  have hE2 : maxH * w < h * (maxH * w / h) + h := by
    have h1 := Nat.div_add_mod (maxH * w) h
    have h2 : (maxH * w) % h < h := Nat.mod_lt _ hh
    omega
  generalize hEg : maxH * w / h = E at hE1 hE2 ⊢
  -- sharp bound: the rounded quotient never exceeds maxH
  have hbnd : m2 ≤ maxH * 2 ^ k2 := by
    have u1 : 2 * (maxH * m1 * 2 ^ k2) ≤ 2 * (maxH * 2 ^ k1 * 2 ^ k2) :=
      Nat.mul_le_mul_left _ (Nat.mul_le_mul_right _ (Nat.mul_le_mul_left _ hbr))
    have c1 : (2 * m2) * 2 ^ k1 ≤ (2 * (maxH * 2 ^ k2) + 1) * 2 ^ k1 := by
      ring_nf at u1 ⊢
      ring_nf at sB
      linarith [sB, u1]
    have c2 : 2 * m2 ≤ 2 * (maxH * 2 ^ k2) + 1 := Nat.le_of_mul_le_mul_right c1 hk1p
    have c3 : 2 * m2 < 2 * (maxH * 2 ^ k2 + 1) := by linarith
    have c4 : m2 < maxH * 2 ^ k2 + 1 := Nat.lt_of_mul_lt_mul_left c3
    exact Nat.lt_succ_iff.mp c4
  have hdivH : m2 / 2 ^ k2 ≤ maxH := by
    have h1 := Nat.div_le_div_right (c := 2 ^ k2) hbnd
    rwa [Nat.mul_div_cancel _ hk2p] at h1
  -- aux1: maxH * 2^k2 < 2 * 2^k1
  have hS2K : maxH * 2 ^ k2 < 2 * 2 ^ k1 := by
    have a1 : maxH * 2 ^ k2 * 2 ^ 52 ≤ maxH * 2 ^ k2 * m1 := Nat.mul_le_mul_left _ rM1
    have a2 : 2 ^ 52 * (maxH * 2 ^ k2) < 2 ^ 52 * (2 * 2 ^ k1) := by
      ring_nf at a1 ⊢
      ring_nf at sN2
      linarith [a1, sN2]
    exact Nat.lt_of_mul_lt_mul_left a2
  -- aux2: 2 ≤ 2^k2
  have hSge2 : 2 ≤ 2 ^ k2 := by
    by_contra hcon
    have hS1 : 2 ^ k2 ≤ 1 := by omega
    have b1 : maxH * 2 ^ k2 ≤ maxH * 1 := Nat.mul_le_mul_left _ hS1
    rw [Nat.mul_one] at b1
    linarith [hbnd, b1, sM1, hmhb]
  have hup : m2 / 2 ^ k2 ≤ E + 1 := by
    have hlt : m2 < (E + 2) * 2 ^ k2 := by
      by_contra hcon
      have hc : (E + 2) * 2 ^ k2 ≤ m2 := by omega
      have t1 : 2 * ((E + 2) * 2 ^ k2 * 2 ^ k1) * h ≤ 2 * (m2 * 2 ^ k1) * h :=
        Nat.mul_le_mul_right h (Nat.mul_le_mul_left 2 (Nat.mul_le_mul_right _ hc))
      have t2 : 2 * (m2 * 2 ^ k1) * h ≤ (2 * (maxH * m1 * 2 ^ k2) + 2 ^ k1) * h :=
        Nat.mul_le_mul_right h sB
      have t3 : 2 * (m1 * h) * (maxH * 2 ^ k2) ≤
          (2 * (w * 2 ^ k1) + h) * (maxH * 2 ^ k2) := Nat.mul_le_mul_right _ rB
      have hE2s : maxH * w + 1 ≤ h * E + h := hE2
      have t4 : (maxH * w + 1) * (2 * (2 ^ k1 * 2 ^ k2)) ≤
          (h * E + h) * (2 * (2 ^ k1 * 2 ^ k2)) := Nat.mul_le_mul_right _ hE2s
      have hS2Ks : maxH * 2 ^ k2 + 1 ≤ 2 * 2 ^ k1 := hS2K
      have t5 : h * (maxH * 2 ^ k2 + 1) ≤ h * (2 * 2 ^ k1) := Nat.mul_le_mul_left _ hS2Ks
      have t6 : 2 * (2 ^ k1 * h) * 2 ≤ 2 * (2 ^ k1 * h) * 2 ^ k2 :=
        Nat.mul_le_mul_left _ hSge2
      have z1 : 0 ≤ 2 ^ k1 * h := Nat.zero_le _
      have z2 : 0 ≤ 2 ^ k1 * 2 ^ k2 := Nat.zero_le _
      ring_nf at t1 t2 t3 t4 t5 t6 z1 z2
      linarith [t1, t2, t3, t4, t5, t6, z1, z2, hh]
    have := (Nat.div_lt_iff_lt_mul hk2p).mpr hlt
    omega
  have hlow : E ≤ m2 / 2 ^ k2 + 1 := by
    by_contra hcon
    have hD : m2 / 2 ^ k2 + 2 ≤ E := Nat.lt_of_not_le hcon
    have h2E : 2 ≤ E := le_trans (Nat.le_add_left 2 _) hD
    obtain ⟨E2, hE2eq⟩ : ∃ e2, E = e2 + 2 := ⟨E - 2, by omega⟩
    have hmlt : m2 + 1 ≤ (E2 + 1) * 2 ^ k2 := by
      have h1 := Nat.div_add_mod m2 (2 ^ k2)
      have h2 : m2 % 2 ^ k2 < 2 ^ k2 := Nat.mod_lt _ hk2p
      have h3 : 2 ^ k2 * (m2 / 2 ^ k2) ≤ 2 ^ k2 * E2 := Nat.mul_le_mul_left _ (by omega)
      linarith [h1, h2, h3]
    have t1 : 2 * (maxH * m1 * 2 ^ k2) * h ≤ (2 * (m2 * 2 ^ k1) + 2 ^ k1) * h :=
      Nat.mul_le_mul_right h sA
    have t2 : 2 * (w * 2 ^ k1) * (maxH * 2 ^ k2) ≤
        (2 * (m1 * h) + h) * (maxH * 2 ^ k2) := Nat.mul_le_mul_right _ rA
    have t3 : (h * (E2 + 2)) * (2 * (2 ^ k1 * 2 ^ k2)) ≤
        (maxH * w) * (2 * (2 ^ k1 * 2 ^ k2)) := by
      rw [hE2eq] at hE1
      exact Nat.mul_le_mul_right _ hE1
    have t4 : (m2 + 1) * (2 * (2 ^ k1 * h)) ≤ ((E2 + 1) * 2 ^ k2) * (2 * (2 ^ k1 * h)) :=
      Nat.mul_le_mul_right _ hmlt
    have hS2Ks : maxH * 2 ^ k2 + 1 ≤ 2 * 2 ^ k1 := hS2K
    have t5 : h * (maxH * 2 ^ k2 + 1) ≤ h * (2 * 2 ^ k1) := Nat.mul_le_mul_left _ hS2Ks
    have t6 : 2 * (2 ^ k1 * h) ≤ 2 * (2 ^ k1 * h) * 2 ^ k2 :=
      Nat.le_mul_of_pos_right _ hk2p
    have z1 : 0 ≤ 2 ^ k1 * h := Nat.zero_le _
    ring_nf at t1 t2 t3 t4 t5 t6 z1
    linarith [t1, t2, t3, t4, t5, t6, z1, hh]
  exact ⟨hup, hlow, hdivH⟩

/-- Branch shape of `computeDims` when `fl(w / h) > 1` (landscape): the
height is the saturating truncation of `fl(maxW / fl(w / h))`. -/
theorem computeDims_land (w h maxW maxH m1 k1 : Nat) (hh : h ≠ 0)
    (hr : roundF64 w h = (m1, k1)) (hbr : 2 ^ k1 < m1) :
    computeDims w h maxW maxH =
      (maxW,
        min ((roundF64 (maxW * 2 ^ k1) m1).1 / 2 ^ (roundF64 (maxW * 2 ^ k1) m1).2)
          (2 ^ 32 - 1)) := by
  rw [computeDims, if_neg hh]
  simp only [hr, Nat.shiftLeft_eq, Nat.shiftRight_eq_div_pow]
  rw [if_pos hbr]

/-- Branch shape of `computeDims` when `fl(w / h) ≤ 1` (portrait/square):
the width is the saturating truncation of `fl(maxH * fl(w / h))`. -/
theorem computeDims_port (w h maxW maxH m1 k1 : Nat) (hh : h ≠ 0)
    (hr : roundF64 w h = (m1, k1)) (hbr : ¬ 2 ^ k1 < m1) :
    computeDims w h maxW maxH =
      (min ((roundF64 (maxH * m1) (2 ^ k1)).1 / 2 ^ (roundF64 (maxH * m1) (2 ^ k1)).2)
        (2 ^ 32 - 1), maxH) := by
  rw [computeDims, if_neg hh]
  simp only [hr, Nat.shiftLeft_eq, Nat.shiftRight_eq_div_pow, one_mul]
  rw [if_neg hbr]

set_option maxRecDepth 4000 in
/-- C4 counterexample, both to the bounds clause and to the exact formula.
(a) "Neither computed dimension exceeds its corresponding bound" fails for
unequal bounds: a 2x1 source with bounds (400, 100) yields (400, 200) -
the computed height 200 exceeds its bound 100 (at this input the f64
arithmetic is exact, so this is a counterexample to the claim and not a
rounding artifact).  (b) The stated truncation formula itself is off by
one at some inputs because the code evaluates it in f64 with two
roundings: at a 23x40 source with bounds (200, 200) the code computes
width 114 - fl(200 * fl(23/40)) lies just below 115 and truncates to 114 -
while the exact formula trunc(200 * 23/40) gives 115. -/
theorem c4_bounds_counterexample :
    computeDims 2 1 400 100 = (400, 200) ∧
    ¬ (computeDims 2 1 400 100).2 ≤ 100 ∧
    computeDims 23 40 200 200 = (114, 200) ∧
    exactDims 23 40 200 200 = (115, 200) ∧
    ¬ computeDims 23 40 200 200 = exactDims 23 40 200 200 := by
  decide

/-- C4 (amended): dimension choice of `create_thumbnail` (utils.rs 66-77),
with the `f64` arithmetic embedded bit-exactly (`computeDims`).  For a
source with `0 < w, h < 2^32` and bounds `0 < maxW, maxH < 2^32`: the
`ratio > 1.0` branch is taken exactly when `h < w`; the constrained axis
equals its bound exactly; the free axis is within one unit of the exact
truncated formula (`maxW * h / w`, resp. `maxH * w / h`) - only *within
one*, not equal, because the two `f64` roundings can land just below an
exact integer quotient (see the 23x40 counterexample); the free axis
never exceeds the *other* axis's bound, so with equal bounds (as at every
call site: 200x200) neither dimension exceeds its bound - while for
unequal bounds the free axis can exceed its own bound (counterexample).
Finally the exact integer formula `exactDims` agrees with the spec's
exact-rational reading `specDims`. -/
theorem c4_dims_f64 (w h maxW maxH : Nat)
    (hw : 0 < w) (hh : 0 < h) (hwb : w < 2 ^ 32) (hhb : h < 2 ^ 32)
    (hmw : 0 < maxW) (hmh : 0 < maxH) (hmwb : maxW < 2 ^ 32) (hmhb : maxH < 2 ^ 32) :
    (h < w →
      (computeDims w h maxW maxH).1 = maxW ∧
      (computeDims w h maxW maxH).2 ≤ maxW * h / w + 1 ∧
      maxW * h / w ≤ (computeDims w h maxW maxH).2 + 1 ∧
      (computeDims w h maxW maxH).2 ≤ maxW) ∧
    (w ≤ h →
      (computeDims w h maxW maxH).2 = maxH ∧
      (computeDims w h maxW maxH).1 ≤ maxH * w / h + 1 ∧
      maxH * w / h ≤ (computeDims w h maxW maxH).1 + 1 ∧
      (computeDims w h maxW maxH).1 ≤ maxH) ∧
    (maxW = maxH →
      (computeDims w h maxW maxH).1 ≤ maxW ∧ (computeDims w h maxW maxH).2 ≤ maxH) ∧
    exactDims w h maxW maxH = specDims w h maxW maxH := by
  have hhne : h ≠ 0 := Nat.pos_iff_ne_zero.mp hh
  have h52 : w < 2 ^ 52 * h := by
    have h1 : 2 ^ 32 * 1 ≤ 2 ^ 52 * h := Nat.mul_le_mul (by norm_num) hh
    rw [Nat.mul_one] at h1
    exact lt_of_lt_of_le hwb h1
  obtain ⟨m1, k1, hr⟩ : ∃ m1 k1, roundF64 w h = (m1, k1) := ⟨_, _, rfl⟩
  obtain ⟨rN1, rN2, rA, rB, rM1, rM2⟩ :=
    roundF64_spec w h hw hh h52 (lt_trans hwb (by norm_num)) (lt_trans hhb (by norm_num))
  simp only [hr] at rN1 rN2 rA rB rM1 rM2
  have hk1p : (0 : Nat) < 2 ^ k1 := Nat.pos_pow_of_pos _ (by norm_num)
  have hm1p : (0 : Nat) < m1 := lt_of_lt_of_le (by norm_num) rM1
  have hk1b : 2 ^ k1 < 2 ^ 85 := by
    calc 2 ^ k1 = 1 * 2 ^ k1 := (Nat.one_mul _).symm
    _ ≤ w * 2 ^ k1 := Nat.mul_le_mul_right _ hw
    _ < 2 ^ 53 * h := rN2
    _ < 2 ^ 53 * 2 ^ 32 := (Nat.mul_lt_mul_left (by norm_num)).mpr hhb
    _ = 2 ^ 85 := by norm_num
  by_cases hbr : 2 ^ k1 < m1
  · -- landscape branch, taken exactly when h < w
    have hlt : h < w := ratioGtOne w h m1 k1 hh rB hbr
    have hnum2 : 0 < maxW * 2 ^ k1 := Nat.mul_pos hmw hk1p
    have hq2 : maxW * 2 ^ k1 < 2 ^ 52 * m1 := by
      calc maxW * 2 ^ k1 < 2 ^ 32 * 2 ^ k1 := (Nat.mul_lt_mul_right hk1p).mpr hmwb
      _ ≤ 2 ^ 32 * m1 := Nat.mul_le_mul_left _ (le_of_lt hbr)
      _ ≤ 2 ^ 52 * m1 := Nat.mul_le_mul_right _ (by norm_num)
    have hnb2 : maxW * 2 ^ k1 < 2 ^ 128 := by
      calc maxW * 2 ^ k1 ≤ 2 ^ 32 * 2 ^ k1 := Nat.mul_le_mul_right _ (le_of_lt hmwb)
      _ < 2 ^ 32 * 2 ^ 85 := (Nat.mul_lt_mul_left (by norm_num)).mpr hk1b
      _ < 2 ^ 128 := by norm_num
    have hdb2 : m1 < 2 ^ 128 := lt_of_le_of_lt rM2 (by norm_num)
    obtain ⟨m2, k2, hs⟩ : ∃ m2 k2, roundF64 (maxW * 2 ^ k1) m1 = (m2, k2) := ⟨_, _, rfl⟩
    obtain ⟨sN1, sN2, sA, sB, sM1, sM2⟩ :=
      roundF64_spec (maxW * 2 ^ k1) m1 hnum2 hm1p hq2 hnb2 hdb2
    simp only [hs] at sN1 sN2 sA sB sM1 sM2
    obtain ⟨f1, f2, f3⟩ := landFacts w h maxW m1 k1 m2 k2 hw hh hwb hhb hmwb hmw hbr
      rA rB rN1 rN2 rM1 rM2 sA sB sN1 sN2 sM1 sM2
    have hcd := computeDims_land w h maxW maxH m1 k1 hhne hr hbr
    rw [hs] at hcd
    simp only at hcd
    have hmin : min (m2 / 2 ^ k2) (2 ^ 32 - 1) = m2 / 2 ^ k2 :=
      Nat.min_eq_left (le_trans f3 (by omega))
    rw [hmin] at hcd
    refine ⟨fun _ => ?_, fun hwh => absurd hlt (Nat.not_lt.mpr hwh), fun heq => ?_,
      exactDims_eq_specDims w h maxW maxH hw hh⟩
    · rw [hcd]
      exact ⟨rfl, f1, f2, f3⟩
    · rw [hcd]
      exact ⟨Nat.le_refl _, by rw [← heq]; exact f3⟩
  · -- portrait branch, taken exactly when w ≤ h
    have hbrle : m1 ≤ 2 ^ k1 := Nat.le_of_not_lt hbr
    have hwh : w ≤ h := ratioLeOne w h m1 k1 hh hwb rA rN1 hbrle
    have hnum2 : 0 < maxH * m1 := Nat.mul_pos hmh hm1p
    have hq2 : maxH * m1 < 2 ^ 52 * 2 ^ k1 := by
      calc maxH * m1 < 2 ^ 32 * m1 := (Nat.mul_lt_mul_right hm1p).mpr hmhb
      _ ≤ 2 ^ 32 * 2 ^ k1 := Nat.mul_le_mul_left _ hbrle
      _ ≤ 2 ^ 52 * 2 ^ k1 := Nat.mul_le_mul_right _ (by norm_num)
    have hnb2 : maxH * m1 < 2 ^ 128 := by
      calc maxH * m1 ≤ 2 ^ 32 * m1 := Nat.mul_le_mul_right _ (le_of_lt hmhb)
      _ ≤ 2 ^ 32 * 2 ^ 53 := Nat.mul_le_mul_left _ rM2
      _ < 2 ^ 128 := by norm_num
    have hdb2 : 2 ^ k1 < 2 ^ 128 := lt_trans hk1b (by norm_num)
    obtain ⟨m2, k2, hs⟩ : ∃ m2 k2, roundF64 (maxH * m1) (2 ^ k1) = (m2, k2) := ⟨_, _, rfl⟩
    obtain ⟨sN1, sN2, sA, sB, sM1, sM2⟩ :=
      roundF64_spec (maxH * m1) (2 ^ k1) hnum2 hk1p hq2 hnb2 hdb2
    simp only [hs] at sN1 sN2 sA sB sM1 sM2
    obtain ⟨f1, f2, f3⟩ := portFacts w h maxH m1 k1 m2 k2 hw hh hwb hhb hmhb hmh hbrle
      rA rB rN1 rN2 rM1 rM2 sA sB sN1 sN2 sM1 sM2
    have hcd := computeDims_port w h maxW maxH m1 k1 hhne hr hbr
    rw [hs] at hcd
    simp only at hcd
    have hmin : min (m2 / 2 ^ k2) (2 ^ 32 - 1) = m2 / 2 ^ k2 :=
      Nat.min_eq_left (le_trans f3 (by omega))
    rw [hmin] at hcd
    refine ⟨fun hlt => absurd hlt (Nat.not_lt.mpr hwh), fun _ => ?_, fun heq => ?_,
      exactDims_eq_specDims w h maxW maxH hw hh⟩
    · rw [hcd]
      exact ⟨rfl, f1, f2, f3⟩
    · rw [hcd]
      exact ⟨by rw [heq]; exact f3, Nat.le_refl _⟩

/-- C4 witness: a 4x3 landscape source with the call sites' 200x200 bounds
satisfies every hypothesis, and the amended theorem instantiates to the
computed pair (200, 150) being within one of trunc(200 * 3 / 4) = 150 and
within the bound. -/
theorem c4_dims_f64_witness :
    ((0 < 4 ∧ 0 < 3 ∧ 4 < 2 ^ 32 ∧ 3 < 2 ^ 32) ∧
     (0 < 200 ∧ 200 < 2 ^ 32) ∧ 3 < 4) ∧
    ((computeDims 4 3 200 200).1 = 200 ∧
     (computeDims 4 3 200 200).2 ≤ 200 * 3 / 4 + 1 ∧
     200 * 3 / 4 ≤ (computeDims 4 3 200 200).2 + 1 ∧
     (computeDims 4 3 200 200).2 ≤ 200) :=
  ⟨by decide, (c4_dims_f64 4 3 200 200 (by decide) (by decide) (by decide) (by decide)
      (by decide) (by decide) (by decide) (by decide)).1 (by decide)⟩


/-- C1 counterexample: `create_thumbnail` calls `image::open` (utils.rs 56)
*before* the `thumbnail_path.exists()` check (utils.rs 62).  With the
thumbnail already present, a call still performs one source decode; two
consecutive calls on a fresh image perform two decodes in total, so the
decode work is *not* performed at most once and the second call is not free
of source reads. -/
theorem c1_cache_counterexample :
    (createThumbnail ⟨some (800, 600), true, true⟩ 200 200).decodes = 1 ∧
    (callTwice ⟨some (800, 600), false, true⟩ 200 200).1.decodes +
      (callTwice ⟨some (800, 600), false, true⟩ 200 200).2.decodes = 2 ∧
    ¬ ((callTwice ⟨some (800, 600), false, true⟩ 200 200).1.decodes +
      (callTwice ⟨some (800, 600), false, true⟩ 200 200).2.decodes ≤ 1) := by
  decide

/-- C1 amended: when the derived thumbnail path already exists,
`create_thumbnail` returns success after decoding the source once but
performing no resize/encode; hence two calls on the same image and bounds
perform the *encode* work at most once (the second call encodes nothing),
while the source is re-decoded on every call.  Separately, the recursive
walk `create_thumbnails` (utils.rs 110-123) pre-checks the derived
thumbnail path and skips the file *before* any decode when it exists. -/
theorem c1_cache_amended :
    (∀ (env : ThumbEnv) (mw mh : Nat) (d : Nat × Nat),
      env.srcDims = some d → env.thumbExists = true →
      createThumbnail env mw mh = ⟨true, 1, 0, true, none⟩) ∧
    (∀ (env : ThumbEnv) (mw mh : Nat) (d : Nat × Nat),
      env.srcDims = some d → env.saveOk = true →
      (callTwice env mw mh).1.ok = true ∧ (callTwice env mw mh).2.ok = true ∧
      (callTwice env mw mh).1.encodes + (callTwice env mw mh).2.encodes ≤ 1 ∧
      (callTwice env mw mh).2.encodes = 0 ∧
      (callTwice env mw mh).1.decodes + (callTwice env mw mh).2.decodes = 2) ∧
    (∀ (imgF : String) (mw mh : Nat) (fp n : String) (dims : Option (Nat × Nat))
      (enc : Bool) (ex : List String),
      extOf n = some "webp" →
      strReplace (fp ++ "/" ++ n) (lastSeg fp) "thumbnails" ∈ ex →
      ctL imgF mw mh fp [.file n dims enc] ex = ⟨0, 0, [], true, ex⟩) := by
  refine ⟨?_, ?_, ?_⟩
  · rintro ⟨sd, te, so⟩ mw mh ⟨w, h⟩ hs ht
    simp only at hs ht
    subst hs ht
    simp [createThumbnail]
  · rintro ⟨sd, te, so⟩ mw mh ⟨w, h⟩ hs hso
    simp only at hs hso
    subst hs hso
    cases te <;> simp [callTwice, createThumbnail]
  · intro imgF mw mh fp n dims enc ex h1 h2
    simp [ctL, ctE, h1, h2]

theorem c1_cache_amended_witness :
    (createThumbnail ⟨some (800, 600), true, true⟩ 200 200 = ⟨true, 1, 0, true, none⟩) ∧
    ((callTwice ⟨some (800, 600), false, true⟩ 200 200).1.ok = true ∧
      (callTwice ⟨some (800, 600), false, true⟩ 200 200).2.ok = true ∧
      (callTwice ⟨some (800, 600), false, true⟩ 200 200).1.encodes +
        (callTwice ⟨some (800, 600), false, true⟩ 200 200).2.encodes ≤ 1 ∧
      (callTwice ⟨some (800, 600), false, true⟩ 200 200).2.encodes = 0 ∧
      (callTwice ⟨some (800, 600), false, true⟩ 200 200).1.decodes +
        (callTwice ⟨some (800, 600), false, true⟩ 200 200).2.decodes = 2) ∧
    ctL "images" 200 200 "images/pc" [.file "a.webp" (some (2, 2)) true]
      ["images/thumbnails/a.webp"] = ⟨0, 0, [], true, ["images/thumbnails/a.webp"]⟩ :=
  ⟨c1_cache_amended.1 ⟨some (800, 600), true, true⟩ 200 200 (800, 600) rfl rfl,
   c1_cache_amended.2.1 ⟨some (800, 600), false, true⟩ 200 200 (800, 600) rfl rfl,
   c1_cache_amended.2.2 "images" 200 200 "images/pc" "a.webp" (some (2, 2)) true
     ["images/thumbnails/a.webp"] (by decide) (by decide)⟩

theorem convertL_decoded : ∀ es : List Ent, ∀ fp : String,
    (convertL fp es).decoded = rasterPaths fp es := by
  intro es
  induction es using entListInd with
  | h0 => intro fp; rfl
  | hf n d e rest ih =>
    intro fp
    cases hr : isRaster (extOf n)
    · simp [convertL, convertE, rasterPaths, rasterPathsE, hr, ih]
    · cases d with
      | none => simp [convertL, convertE, rasterPaths, rasterPathsE, hr, ih]
      | some d0 => cases e <;> simp [convertL, convertE, rasterPaths, rasterPathsE, hr, ih]
  | hd n cs rest ih1 ih2 =>
    intro fp
    simp [convertL, convertE, rasterPaths, rasterPathsE, ih1, ih2]

theorem convertL_counts : ∀ es : List Ent, ∀ fp : String,
    (convertL fp es).converted = countRasterOkL es ∧
    (convertL fp es).failed = countRasterBadL es := by
  intro es
  induction es using entListInd with
  | h0 => intro fp; exact ⟨rfl, rfl⟩
  | hf n d e rest ih =>
    intro fp
    cases hr : isRaster (extOf n)
    · simp [convertL, convertE, countRasterOkL, countRasterOkE, countRasterBadL, countRasterBadE, hr, ih]
    · cases d with
      | none => simp [convertL, convertE, countRasterOkL, countRasterOkE, countRasterBadL, countRasterBadE, hr, ih]
      | some d0 =>
        cases e <;> simp [convertL, convertE, countRasterOkL, countRasterOkE, countRasterBadL, countRasterBadE, hr, ih]
  | hd n cs rest ih1 ih2 =>
    intro fp
    simp [convertL, convertE, countRasterOkL, countRasterOkE,
      countRasterBadL, countRasterBadE, ih1, ih2]

/-- C2 counterexample: `convert_images_to_webp` has no exclusion of the
thumbnails subtree.  On a tree whose only content is
`<root>/thumbnails/x.jpg`, the walk recurses into `thumbnails`, decodes the
file and re-encodes it (converted count 1), contradicting "never recurses
into or re-encodes any file located inside the thumbnails subtree". -/
theorem c2_thumbnails_counterexample :
    (convertL "root" [.dir "thumbnails" [.file "x.jpg" (some (4, 3)) true]]).converted
      = 1 ∧
    (convertL "root" [.dir "thumbnails" [.file "x.jpg" (some (4, 3)) true]]).decoded
      = ["root/thumbnails/x.jpg"] := by
  decide

/-- C2 amended: the recursive walk of `convert_images_to_webp` treats a
directory named `thumbnails` like any other directory — the recursion
proceeds into it and its converted/failure counts contribute to the total.
What the routine *does* guarantee is that only files bearing a raster
extension (`jpg`/`png`/`jpeg`) are ever decoded: the set of decoded paths is
exactly the raster-extension files of the whole tree, so `.webp` files — in
particular all post-pipeline thumbnails — are never re-encoded, while a
raster-named file placed inside the thumbnails subtree is. -/
theorem c2_no_structural_exclusion :
    (∀ (fp : String) (es : List Ent), (convertL fp es).decoded = rasterPaths fp es) ∧
    (∀ (fp : String) (cs rest : List Ent),
      (convertL fp (.dir "thumbnails" cs :: rest)).converted =
        (convertL (fp ++ "/" ++ "thumbnails") cs).converted +
          (convertL fp rest).converted) :=
  ⟨fun fp es => convertL_decoded es fp,
   fun fp cs rest => by simp [convertL, convertE]⟩

theorem ctL_counts (imgF : String) (mw mh : Nat) : ∀ es : List Ent, ∀ fp : String,
    ∀ ex : List String, (ctL imgF mw mh fp es ex).hit = false →
    (ctL imgF mw mh fp es ex).count = countThumbOkL fp es ∧
    (ctL imgF mw mh fp es ex).failed = countThumbBadL fp es := by
  intro es
  induction es using entListInd with
  | h0 => intro fp ex h; exact ⟨rfl, rfl⟩
  | hf n dims enc rest ih =>
    intro fp ex h
    by_cases hcw : extOf n = some "webp"
    · by_cases htp : strReplace (fp ++ "/" ++ n) (lastSeg fp) "thumbnails" ∈ ex
      · simp [ctL, ctE, hcw, htp] at h
      · by_cases hin : (imgF ++ "/thumbnails/" ++ n) ∈ ex
        · cases dims with
          | none =>
            simp [ctL, ctE, createThumbnail, hcw, htp, hin] at h ⊢
            obtain ⟨h1, h2⟩ := ih fp ex h
            simp [countThumbOkL, countThumbOkE, countThumbBadL, countThumbBadE, hcw,
              h1, h2]
          | some d =>
            obtain ⟨w0, h0⟩ := d
            simp [ctL, ctE, createThumbnail, hcw, htp, hin] at h
        · cases dims with
          | none =>
            simp [ctL, ctE, createThumbnail, hcw, htp, hin] at h ⊢
            obtain ⟨h1, h2⟩ := ih fp ex h
            simp [countThumbOkL, countThumbOkE, countThumbBadL, countThumbBadE, hcw,
              h1, h2]
          | some d =>
            obtain ⟨w0, h0⟩ := d
            cases enc with
            | true =>
              simp [ctL, ctE, createThumbnail, hcw, htp, hin] at h ⊢
              obtain ⟨h1, h2⟩ := ih fp ((imgF ++ "/thumbnails/" ++ n) :: ex) h
              simp [countThumbOkL, countThumbOkE, countThumbBadL, countThumbBadE, hcw,
                h1, h2]
            | false =>
              simp [ctL, ctE, createThumbnail, hcw, htp, hin] at h ⊢
              obtain ⟨h1, h2⟩ := ih fp ex h
              simp [countThumbOkL, countThumbOkE, countThumbBadL, countThumbBadE, hcw,
                h1, h2]
    · simp [ctL, ctE, hcw] at h ⊢
      obtain ⟨h1, h2⟩ := ih fp ex h
      simp [countThumbOkL, countThumbOkE, countThumbBadL, countThumbBadE, hcw, h1, h2]
  | hd n cs rest ih1 ih2 =>
    intro fp ex h
    by_cases he : strEndsWith (fp ++ "/" ++ n) "thumbnails"
    · simp [ctL, ctE, he] at h ⊢
      obtain ⟨h1, h2⟩ := ih2 fp ex h
      simp [countThumbOkL, countThumbOkE, countThumbBadL, countThumbBadE, he, h1, h2]
    · simp [ctL, ctE, he] at h ⊢
      obtain ⟨hrc, hr⟩ := h
      obtain ⟨a1, a2⟩ := ih1 (fp ++ "/" ++ n) ex hrc
      obtain ⟨b1, b2⟩ :=
        ih2 fp (ctL imgF mw mh (fp ++ "/" ++ n) cs ex).fs hr
      simp [countThumbOkL, countThumbOkE, countThumbBadL, countThumbBadE, he, a1, a2,
        b1, b2]

/-- C5: a decode or encode failure of one file is non-fatal for both walks.
For any tree, `convert_images_to_webp` converts exactly the raster files
that decode and encode, and reports (prints) exactly one failure when the
tree holds exactly one corrupt raster file — all `N` valid files are still
converted.  Likewise `create_thumbnails` (over the portion of the tree it
walks, and provided no thumbnail already exists — no existence check fires)
thumbnails all `N` valid webp files and reports exactly one failure for the
single corrupt one.  Neither walk aborts early. -/
theorem c5_partial_failure :
    (∀ (fp : String) (es : List Ent) (N : Nat),
      countRasterOkL es = N → countRasterBadL es = 1 →
      (convertL fp es).converted = N ∧ (convertL fp es).failed = 1) ∧
    (∀ (imgF : String) (mw mh : Nat) (fp : String) (es : List Ent)
      (ex : List String) (M : Nat),
      strEndsWith fp "thumbnails" = false →
      (createThumbnails imgF mw mh fp es ex).hit = false →
      countThumbOkL fp es = M → countThumbBadL fp es = 1 →
      (createThumbnails imgF mw mh fp es ex).count = M ∧
      (createThumbnails imgF mw mh fp es ex).failed = 1) := by
  constructor
  · intro fp es N hokc hbad
    obtain ⟨h1, h2⟩ := convertL_counts es fp
    rw [h1, h2, hokc, hbad]
    exact ⟨rfl, rfl⟩
  · intro imgF mw mh fp es ex M hend hhit hok hbad
    unfold createThumbnails at hhit ⊢
    simp only [hend, Bool.false_eq_true, if_false] at hhit ⊢
    obtain ⟨h1, h2⟩ := ctL_counts imgF mw mh es fp ex hhit
    rw [h1, h2, hok, hbad]
    exact ⟨rfl, rfl⟩

theorem c5_partial_failure_witness :
    (countRasterOkL
        [.dir "pc" [.file "a.jpg" (some (2, 2)) true, .file "bad.jpg" none true,
          .file "b.png" (some (3, 2)) true]] = 2 ∧
      countRasterBadL
        [.dir "pc" [.file "a.jpg" (some (2, 2)) true, .file "bad.jpg" none true,
          .file "b.png" (some (3, 2)) true]] = 1 ∧
      (convertL "images"
        [.dir "pc" [.file "a.jpg" (some (2, 2)) true, .file "bad.jpg" none true,
          .file "b.png" (some (3, 2)) true]]).converted = 2 ∧
      (convertL "images"
        [.dir "pc" [.file "a.jpg" (some (2, 2)) true, .file "bad.jpg" none true,
          .file "b.png" (some (3, 2)) true]]).failed = 1) ∧
    ((createThumbnails "images" 200 200 "images"
        [.dir "pc" [.file "a.webp" (some (2, 2)) true, .file "bad.webp" none true]]
        []).count = 1 ∧
      (createThumbnails "images" 200 200 "images"
        [.dir "pc" [.file "a.webp" (some (2, 2)) true, .file "bad.webp" none true]]
        []).failed = 1) := by
  refine ⟨⟨by decide, by decide, ?_⟩, ?_⟩
  · exact c5_partial_failure.1 "images"
      [.dir "pc" [.file "a.jpg" (some (2, 2)) true, .file "bad.jpg" none true,
        .file "b.png" (some (3, 2)) true]] 2 (by decide) (by decide)
  · exact c5_partial_failure.2 "images" 200 200 "images"
      [.dir "pc" [.file "a.webp" (some (2, 2)) true, .file "bad.webp" none true]]
      [] 1 (by decide) (by decide) (by decide) (by decide)

theorem idxGo_filter : ∀ es : List Ent, ∀ parent fp : String,
    (idxGo parent fp es).1 =
      ((webpWalk parent fp es).filter (fun pr => pr.1 == "pc")).map Prod.snd ∧
    (idxGo parent fp es).2 =
      ((webpWalk parent fp es).filter (fun pr => pr.1 == "mp")).map Prod.snd := by
  intro es
  induction es using entListInd with
  | h0 => intro parent fp; exact ⟨rfl, rfl⟩
  | hf n d e rest ih =>
    intro parent fp
    obtain ⟨ih1, ih2⟩ := ih parent fp
    by_cases hcw : extOf n = some "webp"
    · by_cases hpc : parent = "pc"
      · subst hpc
        simp [idxGo, idxE, webpWalk, webpWalkE, hcw, ih1, ih2]
      · by_cases hmp : parent = "mp"
        · subst hmp
          simp [idxGo, idxE, webpWalk, webpWalkE, hcw, hpc, ih1, ih2]
        · simp [idxGo, idxE, webpWalk, webpWalkE, hcw, hpc, hmp, ih1, ih2]
    · simp [idxGo, idxE, webpWalk, webpWalkE, hcw, ih1, ih2]
  | hd n cs rest ih1 ih2 =>
    intro parent fp
    obtain ⟨a1, a2⟩ := ih1 n (fp ++ "/" ++ n)
    obtain ⟨b1, b2⟩ := ih2 parent fp
    simp [idxGo, idxE, webpWalk, webpWalkE, a1, a2, b1, b2]

/-- C6 counterexample: the catalog union is *not* the set of webp files
under a category subtree outside the thumbnails subtree.  Only the immediate
parent directory name is consulted, so (i) a webp file at
`r/thumbnails/pc/a.webp` — inside the thumbnails subtree — is indexed under
`pc`, and (ii) a webp file at `r/pc/sub/b.webp` — under the `pc` category
subtree — is not indexed at all because its immediate parent is `sub`. -/
theorem c6_catalog_counterexample :
    (indexImages "r" [.dir "thumbnails" [.dir "pc" [.file "a.webp" (some (1, 1)) true]]]).1 =
      ["r/thumbnails/pc/a.webp"] ∧
    specCatalog "r" [.dir "thumbnails" [.dir "pc" [.file "a.webp" (some (1, 1)) true]]] =
      [] ∧
    (indexImages "r" [.dir "pc" [.dir "sub" [.file "b.webp" (some (1, 1)) true]]]).1 = [] ∧
    (indexImages "r" [.dir "pc" [.dir "sub" [.file "b.webp" (some (1, 1)) true]]]).2 = [] ∧
    specCatalog "r" [.dir "pc" [.dir "sub" [.file "b.webp" (some (1, 1)) true]]] =
      ["r/pc/sub/b.webp"] := by
  decide

/-- C6 amended: after the startup build the catalog's `pc` (resp. `mp`)
sequence is exactly the webp files of the entire walked tree whose
*immediate parent directory* is named `pc` (resp. `mp`), in walk order;
files under any other parent name — including category-named directories
nested inside the thumbnails subtree, and subdirectories of the categories
themselves — are silently ignored.  The union over categories therefore
equals the claim's set only for trees where every webp file outside
`thumbnails` sits directly in a top-level category directory and the
thumbnails subtree contains no directory named `pc` or `mp`. -/
theorem c6_catalog_partition :
    ∀ (root : String) (es : List Ent),
      (indexImages root es).1 =
        ((webpWalk (lastSeg root) root es).filter (fun pr => pr.1 == "pc")).map
          Prod.snd ∧
      (indexImages root es).2 =
        ((webpWalk (lastSeg root) root es).filter (fun pr => pr.1 == "mp")).map
          Prod.snd :=
  fun root es => idxGo_filter es (lastSeg root) root

theorem find?_first {α : Type} (p : α → Bool) :
    ∀ (l : List α) (x : α), l.find? p = some x →
      p x = true ∧ ∃ l1 l2, l = l1 ++ x :: l2 ∧ ∀ y ∈ l1, p y = false := by
  intro l
  induction l with
  | nil => intro x hx; simp [List.find?] at hx
  | cons a t ih =>
    intro x hx
    by_cases hp : p a
    · rw [List.find?_cons_of_pos _ hp] at hx
      obtain rfl : a = x := by injection hx
      exact ⟨hp, [], t, rfl, by simp⟩
    · rw [List.find?_cons_of_neg _ (by simpa using hp)] at hx
      obtain ⟨hpx, l1, l2, rfl, hl1⟩ := ih x hx
      refine ⟨hpx, a :: l1, l2, rfl, ?_⟩
      intro y hy
      rcases List.mem_cons.mp hy with rfl | hmem
      · simpa using hp
      · exact hl1 y hmem

/-- C7 counterexample: the main.rs variant of the lookup
(`data.iter().find(|path| path.contains(&filename))`, main.rs 285) matches
by *substring containment*, not by final path segment: querying `pc`
against the catalog `["images/pc/a.webp"]` returns that path even though its
final segment is `a.webp ≠ pc`, so the claim is false of that cited code. -/
theorem c7_substring_counterexample :
    mainFindImage ["images/pc/a.webp"] "pc" = some "images/pc/a.webp" ∧
    ¬ lastSeg "images/pc/a.webp" = "pc" := by
  decide

/-- C7 amended: the handler.rs lookup (handler.rs 26-38) is a linear scan
returning the *first* entry of `pc ++ mp` whose final path segment equals
the queried name, and a not-found option exactly when no entry's final
segment matches.  The main.rs variant is also a first-match linear scan but
its predicate is substring containment anywhere in the path. -/
theorem c7_lookup_first_match :
    (∀ (pc mp : List String) (q r : String), handlerFindImage pc mp q = some r →
      lastSeg r = q ∧ ∃ l1 l2, pc ++ mp = l1 ++ r :: l2 ∧
        ∀ y ∈ l1, (lastSeg y == q) = false) ∧
    (∀ (pc mp : List String) (q : String),
      handlerFindImage pc mp q = none ↔
        ∀ x ∈ pc ++ mp, (lastSeg x == q) = false) ∧
    (∀ (catalog : List String) (q r : String), mainFindImage catalog q = some r →
      strContains r q = true ∧ ∃ l1 l2, catalog = l1 ++ r :: l2 ∧
        ∀ y ∈ l1, strContains y q = false) := by
  refine ⟨?_, ?_, ?_⟩
  · intro pc mp q r hr
    obtain ⟨hp, l1, l2, heq, hl1⟩ := find?_first _ _ _ hr
    exact ⟨by simpa using hp, l1, l2, heq, hl1⟩
  · intro pc mp q
    constructor
    · intro h x hx
      simpa using List.find?_eq_none.mp h x hx
    · intro h
      refine List.find?_eq_none.mpr fun x hx => ?_
      simpa using h x hx
  · intro catalog q r hr
    exact find?_first _ _ _ hr

theorem c7_lookup_first_match_witness :
    (lastSeg "images/pc/a.webp" = "a.webp" ∧
      ∃ l1 l2, ["images/pc/a.webp"] ++ [] = l1 ++ "images/pc/a.webp" :: l2 ∧
        ∀ y ∈ l1, (lastSeg y == "a.webp") = false) ∧
    (strContains "images/pc/a.webp" "pc" = true ∧
      ∃ l1 l2, ["images/pc/a.webp"] = l1 ++ "images/pc/a.webp" :: l2 ∧
        ∀ y ∈ l1, strContains y "pc" = false) :=
  ⟨c7_lookup_first_match.1 ["images/pc/a.webp"] [] "a.webp" "images/pc/a.webp"
      (by decide),
   c7_lookup_first_match.2.2 ["images/pc/a.webp"] "pc" "images/pc/a.webp"
      (by decide)⟩

set_option maxRecDepth 10000 in
/-- C8 counterexample: a payload whose bytes fail to decode is handled with
`.expect("Failed to decode image")` (handler.rs 172-176): the handler
*panics* instead of returning a structured server error, so "a codec
(decode) or save failure yields a structured server error, not a crash" is
false on the decode side. -/
theorem c8_decode_panic_counterexample :
    uploadImage true "images" "pc" [⟨some [97], false, true, true⟩] =
      (.panicked "Failed to decode image", []) ∧
    isPanic (uploadImage true "images" "pc" [⟨some [97], false, true, true⟩]).1 = true := by
  decide

/-- C8 amended: a payload with no file name yields the structured
bad-request error; a *save* failure yields the structured server error; a
thumbnail-creation failure after a successful image save yields the
distinct partial-success server error while the saved image file remains on
disk (not rolled back); but a *decode* failure panics (`expect`) rather
than producing a structured error. -/
theorem c8_upload_errors :
    (∀ (imgF sub : String) (f : UploadField) (rest : List UploadField),
      f.filename = none →
      uploadImage true imgF sub (f :: rest) = (.badRequest "No filename found.", [])) ∧
    (∀ (imgF sub : String) (b : List Nat) (f : UploadField) (rest : List UploadField),
      f.filename = some b → f.decodable = true → f.savable = false →
      uploadImage true imgF sub (f :: rest) = (.serverError "Failed to save image.", [])) ∧
    (∀ (imgF sub : String) (b : List Nat) (f : UploadField) (rest : List UploadField),
      f.filename = some b → f.decodable = true → f.savable = true → f.thumbOk = false →
      uploadImage true imgF sub (f :: rest) =
        (.serverError "Image uploaded successfully, but failed to create thumbnail.",
          [imgF ++ "/" ++ sub ++ "/" ++ deriveName b])) ∧
    (∀ (imgF sub : String) (b : List Nat) (f : UploadField) (rest : List UploadField),
      f.filename = some b → f.decodable = false →
      uploadImage true imgF sub (f :: rest) = (.panicked "Failed to decode image", [])) := by
  refine ⟨?_, ?_, ?_, ?_⟩
  · rintro imgF sub ⟨fn, fd, fs, ft⟩ rest h
    simp only at h
    subst h
    simp [uploadImage, uploadGo]
  · rintro imgF sub b ⟨fn, fd, fs, ft⟩ rest h1 h2 h3
    simp only at h1 h2 h3
    subst h1 h2 h3
    simp [uploadImage, uploadGo]
  · rintro imgF sub b ⟨fn, fd, fs, ft⟩ rest h1 h2 h3 h4
    simp only at h1 h2 h3 h4
    subst h1 h2 h3 h4
    simp [uploadImage, uploadGo]
  · rintro imgF sub b ⟨fn, fd, fs, ft⟩ rest h1 h2
    simp only at h1 h2
    subst h1 h2
    simp [uploadImage, uploadGo]

theorem c8_upload_errors_witness :
    (uploadImage true "images" "pc" [⟨none, true, true, true⟩] =
      (.badRequest "No filename found.", [])) ∧
    (uploadImage true "images" "pc" [⟨some [97], true, false, true⟩] =
      (.serverError "Failed to save image.", [])) ∧
    (uploadImage true "images" "pc" [⟨some [97], true, true, false⟩] =
      (.serverError "Image uploaded successfully, but failed to create thumbnail.",
        ["images" ++ "/" ++ "pc" ++ "/" ++ deriveName [97]])) ∧
    (uploadImage true "images" "pc" [⟨some [97], false, true, true⟩] =
      (.panicked "Failed to decode image", [])) :=
  ⟨c8_upload_errors.1 "images" "pc" ⟨none, true, true, true⟩ [] rfl,
   c8_upload_errors.2.1 "images" "pc" [97] ⟨some [97], true, false, true⟩ [] rfl rfl rfl,
   c8_upload_errors.2.2.1 "images" "pc" [97] ⟨some [97], true, true, false⟩ []
     rfl rfl rfl rfl,
   c8_upload_errors.2.2.2 "images" "pc" [97] ⟨some [97], false, true, true⟩ [] rfl rfl⟩

/-- C9 counterexample: `get_thumbnail` (handler.rs 264-274) opens the
requested thumbnail with `File::open(..).unwrap()`; for an unknown file name
the handler panics instead of returning a structured not-found result. -/
theorem c9_thumbnail_panic_counterexample :
    isPanic (getThumbnail [] "images" "missing.webp") = true ∧
    isNotFound (getThumbnail [] "images" "missing.webp") = false := by
  decide

/-- C9 amended: `get_image` returns a structured not-found response for an
unknown file name, `get_list` returns structured not-found responses for an
unknown category and for an empty known category — but `get_thumbnail`
panics (`unwrap` on `File::open`) for an unknown thumbnail name instead of
returning a not-found result. -/
theorem c9_not_found :
    (∀ (pc mp : List String) (q : String), handlerFindImage pc mp q = none →
      getImage pc mp q = .notFound "Image not found.") ∧
    (∀ (pc mp : List String) (sub : String),
      sub ≠ "all" → sub ≠ "pc" → sub ≠ "mp" →
      getList pc mp sub = .notFound "Invalid subfolder.") ∧
    (∀ mp : List String, getList [] mp "pc" = .notFound "No images found.") ∧
    (∀ (ex : List String) (imgF f : String),
      ¬ (imgF ++ "/thumbnails/" ++ f) ∈ ex →
      getThumbnail ex imgF f = .panicked "File::open unwrap on missing file") := by
  refine ⟨?_, ?_, ?_, ?_⟩
  · intro pc mp q h
    simp [getImage, h]
  · intro pc mp sub h1 h2 h3
    simp [getList, h1, h2, h3]
  · intro mp
    simp [getList]
  · intro ex imgF f h
    simp [getThumbnail, h]

theorem c9_not_found_witness :
    (getImage ["d/a.webp"] [] "zzz.webp" = .notFound "Image not found.") ∧
    (getList ["d/a.webp"] [] "attic" = .notFound "Invalid subfolder.") ∧
    (getList [] ["d/b.webp"] "pc" = .notFound "No images found.") ∧
    (getThumbnail [] "images" "zzz.webp" =
      .panicked "File::open unwrap on missing file") :=
  ⟨c9_not_found.1 ["d/a.webp"] [] "zzz.webp" (by decide),
   c9_not_found.2.1 ["d/a.webp"] [] "attic" (by decide) (by decide) (by decide),
   c9_not_found.2.2.1 ["d/b.webp"],
   c9_not_found.2.2.2 [] "images" "zzz.webp" (by decide)⟩

/-- C10: `list_images` (handler.rs 236-253) serves a uniformly drawn element
of the selected category's sequence: for any in-range value `draw` of
`rng.gen_range(0..len)` the response is exactly the `draw`-th element of the
`pc`, `mp` or concatenated `all` sequence — hence always a member of that
sequence, never a path outside it — and an empty selected sequence yields
the structured not-found response before any random index is drawn. -/
theorem c10_random_selection :
    (∀ (pc mp : List String) (draw : Nat) (p : String), pc.get? draw = some p →
      listImages pc mp "pc" draw = .okBody p ∧ p ∈ pc) ∧
    (∀ (pc mp : List String) (draw : Nat) (p : String), mp.get? draw = some p →
      listImages pc mp "mp" draw = .okBody p ∧ p ∈ mp) ∧
    (∀ (pc mp : List String) (draw : Nat) (p : String),
      (pc ++ mp).get? draw = some p →
      listImages pc mp "all" draw = .okBody p ∧ p ∈ pc ++ mp) ∧
    (∀ (mp : List String) (draw : Nat),
      listImages [] mp "pc" draw = .notFound "No images found.") ∧
    (∀ draw : Nat,
      listImages [] [] "all" draw = .notFound "No images found.") := by
  refine ⟨?_, ?_, ?_, ?_, ?_⟩
  · intro pc mp draw p hp
    have hne : ¬ pc.isEmpty := by
      cases pc with
      | nil => simp at hp
      | cons a t => simp
    have hp2 := hp
    rw [List.get?_eq_getElem?] at hp2
    exact ⟨by simp [listImages, hne, hp2], List.get?_mem hp⟩
  · intro pc mp draw p hp
    have hne : ¬ mp.isEmpty := by
      cases mp with
      | nil => simp at hp
      | cons a t => simp
    have hp2 := hp
    rw [List.get?_eq_getElem?] at hp2
    exact ⟨by simp [listImages, hne, hp2], List.get?_mem hp⟩
  · intro pc mp draw p hp
    have hne : ¬ (pc ++ mp).isEmpty := by
      cases hpc : pc ++ mp with
      | nil => rw [hpc] at hp; simp at hp
      | cons a t => simp
    have hp2 := hp
    rw [List.get?_eq_getElem?] at hp2
    exact ⟨by simp [listImages, hne, hp2], List.get?_mem hp⟩
  · intro mp draw
    simp [listImages]
  · intro draw
    simp [listImages]

theorem c10_random_selection_witness :
    (listImages ["d/a.webp", "d/b.webp"] [] "pc" 1 = .okBody "d/b.webp" ∧
      "d/b.webp" ∈ ["d/a.webp", "d/b.webp"]) ∧
    (listImages ["d/a.webp"] ["e/c.webp"] "all" 1 = .okBody "e/c.webp" ∧
      "e/c.webp" ∈ ["d/a.webp"] ++ ["e/c.webp"]) ∧
    (listImages [] ["e/c.webp"] "pc" 0 = .notFound "No images found.") ∧
    (listImages [] [] "all" 0 = .notFound "No images found.") :=
  ⟨c10_random_selection.1 ["d/a.webp", "d/b.webp"] [] 1 "d/b.webp" (by decide),
   c10_random_selection.2.2.1 ["d/a.webp"] ["e/c.webp"] 1 "e/c.webp" (by decide),
   c10_random_selection.2.2.2.1 ["e/c.webp"] 0,
   c10_random_selection.2.2.2.2 0⟩

end ImageRandom
